import Mathlib

/-!
Verification of the Direct3D7 Dear ImGui renderer backend
(imgui_impl_dx7.cpp): software Sutherland–Hodgman triangle clipping,
attribute interpolation, draw-command dispatch, pipeline-state backup and
font-texture upload.

The C++ float arithmetic is embedded over ℚ (exact rational arithmetic);
packed 32-bit colors are ℕ with explicit masking; the fixed 8-slot scratch
arrays of the clipper become Lean lists (the verified 7-vertex bound shows
the arrays are large enough).  Bitwise packing of disjoint 8-bit fields
(C `|` on shifted masked bytes) is written as addition of the shifted
fields, which is equal on disjoint ranges.
-/

namespace DX7

/-- Vertex layout used while clipping (struct ClippedVert in the source):
position x, y, depth z, perspective weight rhw, packed 32-bit ARGB color,
texture coordinates u, v. -/
structure ClippedVert where
  x : ℚ
  y : ℚ
  z : ℚ
  rhw : ℚ
  col : ℕ
  u : ℚ
  v : ℚ
deriving DecidableEq, Repr

/-- Clip rectangle as ImVec4: x = minX, y = minY, z = maxX, w = maxY. -/
structure ImVec4 where
  x : ℚ
  y : ℚ
  z : ℚ
  w : ℚ
deriving DecidableEq, Repr

/-- 2-component vector (ImVec2). -/
structure ImVec2 where
  x : ℚ
  y : ℚ
deriving DecidableEq, Repr

/-- InsideBySide: whether a vertex is inside the half-plane of one side of
the rect; side 0 = left (x ≥ minX), 1 = top (y ≥ minY), 2 = right
(x ≤ maxX), default = bottom (y ≤ maxY).  Boundaries are inclusive. -/
def InsideBySide (p : ClippedVert) (R : ImVec4) (side : ℕ) : Bool :=
  match side with
  | 0 => decide (R.x ≤ p.x)
  | 1 => decide (R.y ≤ p.y)
  | 2 => decide (p.x ≤ R.z)
  | _ => decide (p.y ≤ R.w)

/-- The tolerance 1e-6 used by the intersection helper (const float EPS). -/
def EPS : ℚ := 1 / 1000000

/-- fabsf: absolute value of the edge delta. -/
def fabs (q : ℚ) : ℚ := if q < 0 then -q else q

/-- Clamp of the interpolation parameter t to the interval from 0 to 1
(the defensive clamp in IntersectWithSide). -/
def clampT (t : ℚ) : ℚ :=
  if t < 0 then 0 else if t > 1 then 1 else t

/-- Per-channel color interpolation, the lambda lerpB in the source:
(int)(a + t*(b - a) + 0.5f).  For channels a, b below 256 and t between 0
and 1 the argument is nonnegative, so the C truncation toward zero is the
floor. -/
def lerpB (a b : ℕ) (t : ℚ) : ℕ :=
  (⌊(a : ℚ) + t * ((b : ℚ) - (a : ℚ)) + 1 / 2⌋).toNat

/-- Extract the four 8-bit channels of a packed ARGB color:
(c >> 24) & 0xFF, (c >> 16) & 0xFF, (c >> 8) & 0xFF, c & 0xFF. -/
def chA (c : ℕ) : ℕ := (c / 2 ^ 24) % 2 ^ 8
def chR (c : ℕ) : ℕ := (c / 2 ^ 16) % 2 ^ 8
def chG (c : ℕ) : ℕ := (c / 2 ^ 8) % 2 ^ 8
def chB (c : ℕ) : ℕ := c % 2 ^ 8

/-- Repack four 8-bit channels into one 32-bit ARGB value,
(a << 24) | (r << 16) | (g << 8) | b; the C bitwise or of the disjoint
shifted fields equals this sum. -/
def packARGB (a r g b : ℕ) : ℕ :=
  a * 2 ^ 24 + r * 2 ^ 16 + g * 2 ^ 8 + b

/-- Attribute interpolation performed at the end of IntersectWithSide: the
parameter is clamped to the interval from 0 to 1, the position is set to
the already computed boundary intersection (x, y), and z, rhw, u, v and
the four color channels are interpolated linearly from P to Q. -/
def applyIntersection (P Q : ClippedVert) (t0 x y : ℚ) : ClippedVert :=
  let t := clampT t0
  { x := x
    y := y
    z := P.z + t * (Q.z - P.z)
    rhw := P.rhw + t * (Q.rhw - P.rhw)
    col := packARGB (lerpB (chA P.col) (chA Q.col) t)
                    (lerpB (chR P.col) (chR Q.col) t)
                    (lerpB (chG P.col) (chG Q.col) t)
                    (lerpB (chB P.col) (chB Q.col) t)
    u := P.u + t * (Q.u - P.u)
    v := P.v + t * (Q.v - P.v) }

/-- IntersectWithSide: intersect segment PQ with one side of the rect.
When the delta along the clipped axis is below EPS in absolute value the
function falls back to returning P unchanged; otherwise it solves for the
boundary crossing (the raw parameter t is used for the position and the
clamped t for the attributes, exactly as in the source). -/
def IntersectWithSide (P Q : ClippedVert) (side : ℕ) (R : ImVec4) :
    ClippedVert :=
  let dx := Q.x - P.x
  let dy := Q.y - P.y
  if side == 0 || side == 2 then
    let x := if side == 0 then R.x else R.z
    if fabs dx < EPS then P
    else
      let t := (x - P.x) / dx
      let y := P.y + t * dy
      applyIntersection P Q t x y
  else
    let y := if side == 1 then R.y else R.w
    if fabs dy < EPS then P
    else
      let t := (y - P.y) / dy
      let x := P.x + t * dx
      applyIntersection P Q t x y

/-- One edge step of the Sutherland–Hodgman inner loop: both endpoints
inside keeps Q; leaving emits the intersection; entering emits the
intersection then Q; both outside emits nothing. -/
def clipEdgeEmit (R : ImVec4) (side : ℕ) (P Q : ClippedVert) :
    List ClippedVert :=
  if InsideBySide P R side then
    if InsideBySide Q R side then [Q]
    else [IntersectWithSide P Q side R]
  else
    if InsideBySide Q R side then [IntersectWithSide P Q side R, Q]
    else []

/-- The edge loop of one clip pass: edges (poly[i], poly[(i+1) mod n]) in
order, written recursively; P is the current vertex, rest the remaining
vertices and first the polygon head (for the wrap-around edge). -/
def clipPassAux (R : ImVec4) (side : ℕ) :
    ClippedVert → List ClippedVert → ClippedVert → List ClippedVert
  | P, [], first => clipEdgeEmit R side P first
  | P, Q :: rest, first => clipEdgeEmit R side P Q ++ clipPassAux R side Q rest first

/-- One Sutherland–Hodgman pass: clip the polygon against one rect side.
An empty polygon stays empty (the C loop guard side < 4 && n). -/
def clipPass (R : ImVec4) (side : ℕ) (poly : List ClippedVert) :
    List ClippedVert :=
  match poly with
  | [] => []
  | h :: t => clipPassAux R side h t h

/-- The polygon produced by the four successive clip passes of
EmitClippedTri (sides left, top, right, bottom in this order). -/
def clipTriPoly (a b c : ClippedVert) (R : ImVec4) : List ClippedVert :=
  clipPass R 3 (clipPass R 2 (clipPass R 1 (clipPass R 0 [a, b, c])))

/-- Fan-triangulation index triples (base, base+i, base+i+1) for
i = 1 .. n-2; each pushed value is stored as a 16-bit WORD, hence the
mod 2^16. -/
def fanIndices (base n : ℕ) : List ℕ :=
  (List.range (n - 2)).flatMap
    (fun j => [base % 65536, (base + j + 1) % 65536, (base + j + 2) % 65536])

/-- EmitClippedTri: clip triangle abc against rect R; if fewer than 3
vertices survive nothing is appended, otherwise the clipped polygon is
appended to out_v and its fan triangulation (with base index the previous
out_v size, truncated to WORD) to out_i. -/
def EmitClippedTri (a b c : ClippedVert) (R : ImVec4)
    (out_v : List ClippedVert) (out_i : List ℕ) :
    List ClippedVert × List ℕ :=
  let poly := clipTriPoly a b c R
  let n := poly.length
  if n < 3 then (out_v, out_i)
  else (out_v ++ poly, out_i ++ fanIndices (out_v.length % 65536) n)

-- Batteries marks the rational operations irreducible; restore default
-- reducibility inside this development so concrete clipper runs evaluate.
attribute [local semireducible] Rat.add Rat.sub Rat.mul Rat.inv

/-- Shorthand for a clipping vertex at a given position with depth 0,
perspective weight 1, color 0 and texture coordinates 0. -/
def mkV (px py : ℚ) : ClippedVert :=
  { x := px, y := py, z := 0, rhw := 1, col := 0, u := 0, v := 0 }

/-! ### Claim C4: the small-delta fallback of IntersectWithSide -/

/-- When the delta along the clipped axis is below EPS, IntersectWithSide
returns its first argument P unchanged, whatever the side. -/
theorem IntersectWithSide_small_delta (P Q : ClippedVert) (side : ℕ)
    (R : ImVec4)
    (h : (if side == 0 || side == 2 then fabs (Q.x - P.x)
          else fabs (Q.y - P.y)) < EPS) :
    IntersectWithSide P Q side R = P := by
  unfold IntersectWithSide
  by_cases hs : (side == 0 || side == 2) = true
  · simp only [hs, if_true] at h ⊢
    rw [if_pos h]
  · simp only [hs, Bool.false_eq_true, if_false] at h ⊢
    rw [if_pos h]

/-- A concrete entering edge for side 0 of the rect with minX = 0: P is
strictly outside the left half-plane, Q is inside, and the delta along x
is 1e-7, below the 1e-6 tolerance. -/
def cP4 : ClippedVert := mkV (-1 / 10000000) 5
def cQ4 : ClippedVert := mkV 0 5
def R₀ : ImVec4 := { x := 0, y := 0, z := 10, w := 10 }

/-- C4: the claim says the small-delta fallback returns the inside
endpoint; on an entering edge (P outside, Q inside) with small delta the
code returns P, the outside endpoint, so the claim is false. -/
theorem C4_counterexample :
    IntersectWithSide cP4 cQ4 0 R₀ = cP4 ∧
    InsideBySide cP4 R₀ 0 = false ∧
    InsideBySide cQ4 R₀ 0 = true ∧
    cP4 ≠ cQ4 := by decide

/-- C4 (amended): when the edge delta along the clipped axis is below the
1e-6 tolerance, IntersectWithSide returns the first endpoint P of the edge
— which is the inside endpoint on a leaving edge but the outside endpoint
on an entering edge. -/
theorem C4_amended_small_delta_returns_P (P Q : ClippedVert) (side : ℕ)
    (R : ImVec4)
    (h : (if side == 0 || side == 2 then fabs (Q.x - P.x)
          else fabs (Q.y - P.y)) < EPS) :
    IntersectWithSide P Q side R = P :=
  IntersectWithSide_small_delta P Q side R h

/-- C4 witness: the amended theorem applied at the concrete edge. -/
theorem C4_amended_witness : IntersectWithSide cP4 cQ4 0 R₀ = cP4 :=
  C4_amended_small_delta_returns_P cP4 cQ4 0 R₀ (by decide)

/-! ### Claim C5: attribute interpolation -/

/-- Rounding a lattice value: the floor of n + 1/2 is n. -/
theorem floor_nat_add_half (n : ℕ) : ⌊(n : ℚ) + 1 / 2⌋ = n := by
  rw [Int.floor_eq_iff]
  constructor <;> push_cast <;> norm_num

/-- lerpB at parameter 0 returns the first channel exactly. -/
theorem lerpB_zero (a b : ℕ) : lerpB a b 0 = a := by
  unfold lerpB
  norm_num [floor_nat_add_half]

/-- lerpB at parameter 1 returns the second channel exactly. -/
theorem lerpB_one (a b : ℕ) : lerpB a b 1 = b := by
  unfold lerpB
  have : (a : ℚ) + 1 * ((b : ℚ) - (a : ℚ)) + 1 / 2 = (b : ℚ) + 1 / 2 := by
    ring
  rw [this, floor_nat_add_half]
  exact Int.toNat_natCast b

/-- lerpB is rounding to the nearest integer of the linear interpolation
of the two channels (round half up, as the C formula floor(a+t(b-a)+.5)). -/
theorem lerpB_eq_round (a b : ℕ) (t : ℚ) :
    lerpB a b t = (round ((a : ℚ) + t * ((b : ℚ) - (a : ℚ)))).toNat := by
  rw [round_eq]
  rfl

/-- Repacking the four extracted channels of a 32-bit color restores it. -/
theorem packARGB_channels (c : ℕ) (hc : c < 2 ^ 32) :
    packARGB (chA c) (chR c) (chG c) (chB c) = c := by
  unfold packARGB chA chR chG chB
  have d1 : c / 2 ^ 8 / 2 ^ 8 = c / 2 ^ 16 := by
    rw [Nat.div_div_eq_div_mul]
    norm_num
  have d2 : c / 2 ^ 16 / 2 ^ 8 = c / 2 ^ 24 := by
    rw [Nat.div_div_eq_div_mul]
    norm_num
  have hlt : c / 2 ^ 24 < 2 ^ 8 := by
    apply Nat.div_lt_of_lt_mul
    exact hc
  have e1 := Nat.div_add_mod c (2 ^ 8)
  have e2 := Nat.div_add_mod (c / 2 ^ 8) (2 ^ 8)
  have e3 := Nat.div_add_mod (c / 2 ^ 16) (2 ^ 8)
  have m1 : (c / 2 ^ 24) % 2 ^ 8 = c / 2 ^ 24 := Nat.mod_eq_of_lt hlt
  rw [m1]
  omega

/-- The clamp of t always lies between 0 and 1, and is t itself whenever t
already lies between 0 and 1. -/
theorem clampT_spec (t : ℚ) :
    0 ≤ clampT t ∧ clampT t ≤ 1 ∧ (0 ≤ t → t ≤ 1 → clampT t = t) := by
  unfold clampT
  split <;> rename_i h1
  · exact ⟨le_refl 0, by norm_num, fun h _ => by linarith⟩
  · split <;> rename_i h2
    · exact ⟨by norm_num, le_refl 1, fun _ h => by linarith⟩
    · exact ⟨by linarith, by linarith, fun _ _ => rfl⟩

/-- C5: attribute interpolation along P to Q at parameter t: the parameter
is clamped to the interval from 0 to 1 (and kept as is when already in
it); every scalar attribute (z, rhw, u, v) is the linear interpolation
P.attr + t·(Q.attr − P.attr) at the clamped t; each of the four 8-bit
color channels is interpolated independently and rounded to the nearest
integer; and the interpolation is endpoint-exact: at t = 0 it reproduces
all of P's attributes (including the packed 32-bit color) and at t = 1 all
of Q's. -/
theorem C5_interpolation (P Q : ClippedVert) (t x y : ℚ) :
    (0 ≤ clampT t ∧ clampT t ≤ 1 ∧ (0 ≤ t → t ≤ 1 → clampT t = t)) ∧
    ((applyIntersection P Q t x y).z = P.z + clampT t * (Q.z - P.z) ∧
     (applyIntersection P Q t x y).rhw = P.rhw + clampT t * (Q.rhw - P.rhw) ∧
     (applyIntersection P Q t x y).u = P.u + clampT t * (Q.u - P.u) ∧
     (applyIntersection P Q t x y).v = P.v + clampT t * (Q.v - P.v)) ∧
    ((applyIntersection P Q t x y).col =
      packARGB
        ((round ((chA P.col : ℚ) + clampT t * ((chA Q.col : ℚ) - (chA P.col : ℚ)))).toNat)
        ((round ((chR P.col : ℚ) + clampT t * ((chR Q.col : ℚ) - (chR P.col : ℚ)))).toNat)
        ((round ((chG P.col : ℚ) + clampT t * ((chG Q.col : ℚ) - (chG P.col : ℚ)))).toNat)
        ((round ((chB P.col : ℚ) + clampT t * ((chB Q.col : ℚ) - (chB P.col : ℚ)))).toNat)) ∧
    ((applyIntersection P Q 0 x y).z = P.z ∧
     (applyIntersection P Q 0 x y).rhw = P.rhw ∧
     (applyIntersection P Q 0 x y).u = P.u ∧
     (applyIntersection P Q 0 x y).v = P.v ∧
     (P.col < 2 ^ 32 → (applyIntersection P Q 0 x y).col = P.col)) ∧
    ((applyIntersection P Q 1 x y).z = Q.z ∧
     (applyIntersection P Q 1 x y).rhw = Q.rhw ∧
     (applyIntersection P Q 1 x y).u = Q.u ∧
     (applyIntersection P Q 1 x y).v = Q.v ∧
     (Q.col < 2 ^ 32 → (applyIntersection P Q 1 x y).col = Q.col)) := by
  have hc0 : clampT 0 = 0 := by norm_num [clampT]
  have hc1 : clampT 1 = 1 := by norm_num [clampT]
  refine ⟨clampT_spec t, ⟨rfl, rfl, rfl, rfl⟩, ?_, ?_, ?_⟩
  · simp only [applyIntersection, lerpB_eq_round]
  · refine ⟨?_, ?_, ?_, ?_, ?_⟩ <;>
      simp only [applyIntersection, hc0, lerpB_zero, zero_mul, add_zero]
    intro h
    exact packARGB_channels P.col h
  · refine ⟨?_, ?_, ?_, ?_, ?_⟩ <;>
      simp only [applyIntersection, hc1, lerpB_one, one_mul]
    · ring
    · ring
    · ring
    · ring
    · intro h
      exact packARGB_channels Q.col h

/-- C5 witness: the interpolation theorem applied at a concrete edge,
with its embedded implications discharged at concrete values. -/
theorem C5_interpolation_witness :
    (applyIntersection (mkV 0 0) (mkV 4 4) (1 / 2) 2 2).z = 0 + clampT (1 / 2) * (0 - 0) ∧
    (applyIntersection (mkV 0 0) (mkV 4 4) 0 0 0).col = 0 := by
  refine ⟨(C5_interpolation (mkV 0 0) (mkV 4 4) (1 / 2) 2 2).2.1.1, ?_⟩
  exact (C5_interpolation (mkV 0 0) (mkV 4 4) 0 0 0).2.2.2.1.2.2.2.2 (by norm_num [mkV])

/-! ### Polygon area (shoelace), used to check the clipping scenarios -/

/-- Cyclic shoelace sum of cross products, doubled signed area. -/
def shoelaceAux : ℚ × ℚ → List (ℚ × ℚ) → ℚ × ℚ → ℚ
  | p, [], first => p.1 * first.2 - first.1 * p.2
  | p, q :: rest, first => (p.1 * q.2 - q.1 * p.2) + shoelaceAux q rest first

/-- Doubled signed area of a polygon given by its vertex positions. -/
def shoelace2 : List (ℚ × ℚ) → ℚ
  | [] => 0
  | h :: t => shoelaceAux h t h

/-- Unsigned polygon area. -/
def polyArea (l : List (ℚ × ℚ)) : ℚ := fabs (shoelace2 l) / 2

/-! ### Claim C2: the concrete clipping scenario of the spec -/

/-- The scenario triangle (0,0)-(30,0)-(0,30) and rect [10,10,20,20]. -/
def t2a : ClippedVert := mkV 0 0
def t2b : ClippedVert := mkV 30 0
def t2c : ClippedVert := mkV 0 30
def R₂ : ImVec4 := { x := 10, y := 10, z := 20, w := 20 }

/-- C2 counterexample: clipping the scenario triangle yields 3 output
vertices and 3 indices (one triangle), not the quadrilateral with 2
triangles (4 vertices, 6 indices) the claim describes. -/
theorem C2_counterexample :
    (EmitClippedTri t2a t2b t2c R₂ [] []).1.length = 3 ∧
    (EmitClippedTri t2a t2b t2c R₂ [] []).2.length = 3 ∧
    (EmitClippedTri t2a t2b t2c R₂ [] []).1.length ≠ 4 ∧
    (EmitClippedTri t2a t2b t2c R₂ [] []).2.length ≠ 6 := by decide

/-- C2 (amended): clipping the triangle (0,0)-(30,0)-(0,30) against the
rect [10,10,20,20] produces the clipped triangle (10,10)-(20,10)-(10,20),
of area 50, fan-triangulated into exactly 1 output triangle. -/
theorem C2_amended_scenario :
    (EmitClippedTri t2a t2b t2c R₂ [] []).1.map (fun w => (w.x, w.y)) =
      [(10, 10), (20, 10), (10, 20)] ∧
    polyArea ((clipTriPoly t2a t2b t2c R₂).map (fun w => (w.x, w.y))) = 50 ∧
    (EmitClippedTri t2a t2b t2c R₂ [] []).2 = [0, 1, 2] := by decide

/-! ### Claim C3: clipping an all-inside triangle -/

/-- One clip pass over an edge chain of pairwise inside vertices emits
each edge's endpoint in order: the next vertex, then the wrap-around
first vertex. -/
theorem clipPassAux_all_inside (R : ImVec4) (side : ℕ) :
    ∀ (rest : List ClippedVert) (P first : ClippedVert),
    InsideBySide P R side = true →
    (∀ v ∈ rest, InsideBySide v R side = true) →
    InsideBySide first R side = true →
    clipPassAux R side P rest first = rest ++ [first]
  | [], P, first, hP, _, hf => by
    simp [clipPassAux, clipEdgeEmit, hP, hf]
  | q :: rs, P, first, hP, hrest, hf => by
    have hq : InsideBySide q R side = true := hrest q (by simp)
    have hrs : ∀ v ∈ rs, InsideBySide v R side = true := fun v hv =>
      hrest v (by simp [hv])
    simp [clipPassAux, clipEdgeEmit, hP, hq,
      clipPassAux_all_inside R side rs q first hq hrs hf]

/-- One clip pass on a polygon of inside vertices rotates it by one. -/
theorem clipPass_all_inside (R : ImVec4) (side : ℕ) (x : ClippedVert)
    (t : List ClippedVert)
    (h : ∀ v ∈ x :: t, InsideBySide v R side = true) :
    clipPass R side (x :: t) = t ++ [x] := by
  unfold clipPass
  exact clipPassAux_all_inside R side t x x (h x (by simp))
    (fun v hv => h v (by simp [hv])) (h x (by simp))

/-- C3 counterexample: a triangle of three distinct vertices wholly inside
the rect is not returned in the same vertex order: the clipper returns the
rotation [b, c, a], not [a, b, c]. -/
theorem C3_counterexample :
    clipTriPoly (mkV 1 1) (mkV 2 1) (mkV 1 2) R₀ =
      [mkV 2 1, mkV 1 2, mkV 1 1] ∧
    clipTriPoly (mkV 1 1) (mkV 2 1) (mkV 1 2) R₀ ≠
      [mkV 1 1, mkV 2 1, mkV 1 2] := by decide

/-- C3 (amended): a triangle whose three vertices are all inside the rect
(inclusive boundaries) is returned with its vertices unchanged as values
and in the same cyclic order, but rotated by one position: the clipped
polygon is [b, c, a], and the emitted output appends exactly these three
vertices and one triangle of indices.  Re-clipping that polygon rotates
it once more ([c, a, b]); only the cyclic order, not the list order, is
preserved. -/
theorem C3_amended_rotation (a b c : ClippedVert) (R : ImVec4)
    (h : ∀ v ∈ [a, b, c], ∀ s ∈ [0, 1, 2, 3], InsideBySide v R s = true) :
    clipTriPoly a b c R = [b, c, a] ∧
    clipTriPoly b c a R = [c, a, b] ∧
    EmitClippedTri a b c R [] [] = ([b, c, a], [0, 1, 2]) := by
  have key : ∀ x y z : ClippedVert, (∀ v ∈ [x, y, z], ∀ s ∈ [0, 1, 2, 3],
      InsideBySide v R s = true) → clipTriPoly x y z R = [y, z, x] := by
    intro x y z hxyz
    have hs : ∀ s ∈ [0, 1, 2, 3], ∀ v ∈ [x, y, z], InsideBySide v R s = true :=
      fun s hsm v hv => hxyz v hv s hsm
    have p0 : clipPass R 0 [x, y, z] = [y, z, x] :=
      clipPass_all_inside R 0 x [y, z] (hs 0 (by simp))
    have p1 : clipPass R 1 [y, z, x] = [z, x, y] := by
      refine clipPass_all_inside R 1 y [z, x] ?_
      intro v hv
      refine hs 1 (by simp) v ?_
      simp only [List.mem_cons, List.mem_singleton] at hv ⊢
      tauto
    have p2 : clipPass R 2 [z, x, y] = [x, y, z] := by
      refine clipPass_all_inside R 2 z [x, y] ?_
      intro v hv
      refine hs 2 (by simp) v ?_
      simp only [List.mem_cons, List.mem_singleton] at hv ⊢
      tauto
    have p3 : clipPass R 3 [x, y, z] = [y, z, x] :=
      clipPass_all_inside R 3 x [y, z] (hs 3 (by simp))
    unfold clipTriPoly
    rw [p0, p1, p2, p3]
  have h1 : clipTriPoly a b c R = [b, c, a] := key a b c h
  have hbca : ∀ v ∈ [b, c, a], ∀ s ∈ [0, 1, 2, 3], InsideBySide v R s = true := by
    intro v hv
    refine h v ?_
    simp only [List.mem_cons, List.mem_singleton] at hv ⊢
    tauto
  refine ⟨h1, key b c a hbca, ?_⟩
  unfold EmitClippedTri
  rw [h1]
  simp [fanIndices]
  decide

/-- C3 witness: the amended rotation theorem at a concrete triangle. -/
theorem C3_amended_witness :
    clipTriPoly (mkV 1 1) (mkV 2 1) (mkV 1 2) R₀ = [mkV 2 1, mkV 1 2, mkV 1 1] :=
  (C3_amended_rotation (mkV 1 1) (mkV 2 1) (mkV 1 2) R₀ (by decide)).1

/-! ### Claim C1 counterexample: a vertex escapes the rect -/

/-- A triangle whose vertex a is 1e-7 left of the rect: the entering edge
a to b has an x delta below the 1e-6 tolerance, so the fallback keeps the
outside vertex a, which survives all later passes. -/
def cA1 : ClippedVert := mkV (-1 / 10000000) 2
def cB1 : ClippedVert := mkV 0 8
def cC1 : ClippedVert := mkV 5 5

/-- A sliver triangle wholly outside the rect R₀ = [0,10]x[0,10]: each of
its vertices satisfies x + y < 0, hence (the triangle being the convex
hull of its vertices and x + y linear) every point of the triangle has
x + y < 0, while every point of the rect has x ≥ 0 and y ≥ 0, so the
triangle and the rect are disjoint.  Its edges cross the clip boundaries
with deltas below the 1e-6 tolerance, so the fallback emits vertices. -/
def sA1 : ClippedVert := mkV (-1 / 10000000) (1 / 100000000)
def sB1 : ClippedVert := mkV (1 / 100000000) (-1 / 10000000)
def sC1 : ClippedVert := mkV (-1 / 10000000) (-1 / 10000000)

/-- C1 counterexample: (i) the emitted polygon for the triangle cA1 cB1
cC1 contains a vertex with x below minX, so not every output vertex
satisfies the rect bounds; and (ii) the sliver triangle sA1 sB1 sC1 lies
wholly outside the rect (all its vertices, and hence all its points, have
x + y < 0 while the rect lies in x ≥ 0, y ≥ 0), yet the clipper appends 3
vertices and 3 indices for it. -/
theorem C1_counterexample :
    (¬ (∀ w ∈ (EmitClippedTri cA1 cB1 cC1 R₀ [] []).1,
        R₀.x ≤ w.x ∧ w.x ≤ R₀.z ∧ R₀.y ≤ w.y ∧ w.y ≤ R₀.w)) ∧
    (sA1.x + sA1.y < 0 ∧ sB1.x + sB1.y < 0 ∧ sC1.x + sC1.y < 0 ∧
     R₀.x = 0 ∧ R₀.y = 0 ∧
     (EmitClippedTri sA1 sB1 sC1 R₀ [] []).1.length = 3 ∧
     (EmitClippedTri sA1 sB1 sC1 R₀ [] []).2.length = 3) := by decide

/-! ### Geometry of IntersectWithSide: betweenness and tolerance bounds -/

/-- w lies between a and b on the line. -/
def betweenQ (a b w : ℚ) : Prop := min a b ≤ w ∧ w ≤ max a b

/-- w lies in the axis-aligned bounding box of the segment u v. -/
def betweenCV (u v w : ClippedVert) : Prop :=
  betweenQ u.x v.x w.x ∧ betweenQ u.y v.y w.y

/-- The half-plane of a side, widened by the EPS tolerance. -/
def insideEPS (side : ℕ) (R : ImVec4) (w : ClippedVert) : Prop :=
  match side with
  | 0 => R.x - EPS ≤ w.x
  | 1 => R.y - EPS ≤ w.y
  | 2 => w.x ≤ R.z + EPS
  | _ => w.y ≤ R.w + EPS

theorem fabs_lt_iff (q c : ℚ) : fabs q < c ↔ -c < q ∧ q < c := by
  unfold fabs
  split <;> rename_i h
  · exact ⟨fun hh => ⟨by linarith, by linarith⟩, fun hh => by linarith [hh.1]⟩
  · exact ⟨fun hh => ⟨by linarith, by linarith⟩, fun hh => by linarith [hh.2]⟩

theorem betweenQ_left (a b : ℚ) : betweenQ a b a :=
  ⟨min_le_left a b, le_max_left a b⟩

theorem betweenCV_left (u v : ClippedVert) : betweenCV u v u :=
  ⟨betweenQ_left _ _, betweenQ_left _ _⟩

theorem lerp_betweenQ (a b t : ℚ) (h0 : 0 ≤ t) (h1 : t ≤ 1) :
    betweenQ a b (a + t * (b - a)) := by
  unfold betweenQ
  rcases le_total a b with hab | hab
  · rw [min_eq_left hab, max_eq_right hab]
    constructor <;> nlinarith
  · rw [min_eq_right hab, max_eq_left hab]
    constructor <;> nlinarith

/-- Reduction of IntersectWithSide for each concrete side. -/
theorem IntersectWithSide_side0 (u v : ClippedVert) (R : ImVec4) :
    IntersectWithSide u v 0 R =
      (if fabs (v.x - u.x) < EPS then u
       else applyIntersection u v ((R.x - u.x) / (v.x - u.x)) R.x
         (u.y + (R.x - u.x) / (v.x - u.x) * (v.y - u.y))) := rfl

theorem IntersectWithSide_side1 (u v : ClippedVert) (R : ImVec4) :
    IntersectWithSide u v 1 R =
      (if fabs (v.y - u.y) < EPS then u
       else applyIntersection u v ((R.y - u.y) / (v.y - u.y))
         (u.x + (R.y - u.y) / (v.y - u.y) * (v.x - u.x)) R.y) := rfl

theorem IntersectWithSide_side2 (u v : ClippedVert) (R : ImVec4) :
    IntersectWithSide u v 2 R =
      (if fabs (v.x - u.x) < EPS then u
       else applyIntersection u v ((R.z - u.x) / (v.x - u.x)) R.z
         (u.y + (R.z - u.x) / (v.x - u.x) * (v.y - u.y))) := rfl

theorem IntersectWithSide_side3 (u v : ClippedVert) (n : ℕ) (R : ImVec4) :
    IntersectWithSide u v (n + 3) R =
      (if fabs (v.y - u.y) < EPS then u
       else applyIntersection u v ((R.w - u.y) / (v.y - u.y))
         (u.x + (R.w - u.y) / (v.y - u.y) * (v.x - u.x)) R.w) := rfl

theorem InsideBySide_side3 (w : ClippedVert) (n : ℕ) (R : ImVec4) :
    InsideBySide w R (n + 3) = decide (w.y ≤ R.w) := rfl

theorem insideEPS_side3 (w : ClippedVert) (n : ℕ) (R : ImVec4) :
    insideEPS (n + 3) R w = (w.y ≤ R.w + EPS) := rfl

theorem applyIntersection_x (P Q : ClippedVert) (t x y : ℚ) :
    (applyIntersection P Q t x y).x = x := rfl

theorem applyIntersection_y (P Q : ClippedVert) (t x y : ℚ) :
    (applyIntersection P Q t x y).y = y := rfl

/-- The clip parameter is in the unit interval when the boundary value c
lies between the two endpoint coordinates and the delta is nonzero. -/
theorem div_param_unit (ux vx c : ℚ) (hdx : vx - ux ≠ 0)
    (hb : betweenQ ux vx c) :
    0 ≤ (c - ux) / (vx - ux) ∧ (c - ux) / (vx - ux) ≤ 1 := by
  obtain ⟨hb1, hb2⟩ := hb
  have ht : (c - ux) / (vx - ux) * (vx - ux) = c - ux := div_mul_cancel₀ _ hdx
  rcases le_total ux vx with hab | hab
  · rw [min_eq_left hab] at hb1
    rw [max_eq_right hab] at hb2
    have hpos : 0 < vx - ux := lt_of_le_of_ne (by linarith) (Ne.symm hdx)
    constructor <;> nlinarith [ht]
  · rw [min_eq_right hab] at hb1
    rw [max_eq_left hab] at hb2
    have hneg : vx - ux < 0 := lt_of_le_of_ne (by linarith) hdx
    constructor <;> nlinarith [ht]

/-- On a status-crossing edge, IntersectWithSide stays inside the bounding
box of the edge and lands inside the EPS-widened half-plane of the side. -/
theorem IntersectWithSide_spec (u v : ClippedVert) (side : ℕ) (R : ImVec4)
    (hne : InsideBySide u R side ≠ InsideBySide v R side) :
    betweenCV u v (IntersectWithSide u v side R) ∧
    insideEPS side R (IntersectWithSide u v side R) := by
  have hEPS : (0 : ℚ) < EPS := by norm_num [EPS]
  match side with
  | 0 =>
    have hx : (R.x ≤ u.x ∧ ¬ R.x ≤ v.x) ∨ (¬ R.x ≤ u.x ∧ R.x ≤ v.x) := by
      by_cases hu : R.x ≤ u.x <;> by_cases hv : R.x ≤ v.x <;>
        simp [InsideBySide, hu, hv] at hne ⊢
    have hbx : betweenQ u.x v.x R.x := by
      unfold betweenQ
      rw [min_le_iff, le_max_iff]
      rcases hx with ⟨h1, h2⟩ | ⟨h1, h2⟩
      · exact ⟨Or.inr (by linarith), Or.inl h1⟩
      · exact ⟨Or.inl (by linarith), Or.inr h2⟩
    rw [IntersectWithSide_side0]
    split <;> rename_i hfb
    · refine ⟨betweenCV_left u v, ?_⟩
      show R.x - EPS ≤ u.x
      rw [fabs_lt_iff] at hfb
      rcases hx with ⟨h1, _⟩ | ⟨_, h2⟩
      · linarith
      · linarith [hfb.2]
    · have hdx : v.x - u.x ≠ 0 := by
        intro h0
        rw [h0] at hfb
        simp [fabs] at hfb
        linarith
      obtain ⟨ht0, ht1⟩ := div_param_unit u.x v.x R.x hdx hbx
      refine ⟨⟨?_, ?_⟩, ?_⟩
      · rw [applyIntersection_x]
        exact hbx
      · rw [applyIntersection_y]
        exact lerp_betweenQ u.y v.y _ ht0 ht1
      · show R.x - EPS ≤ (applyIntersection u v _ R.x _).x
        rw [applyIntersection_x]
        linarith
  | 1 =>
    have hx : (R.y ≤ u.y ∧ ¬ R.y ≤ v.y) ∨ (¬ R.y ≤ u.y ∧ R.y ≤ v.y) := by
      by_cases hu : R.y ≤ u.y <;> by_cases hv : R.y ≤ v.y <;>
        simp [InsideBySide, hu, hv] at hne ⊢
    have hby : betweenQ u.y v.y R.y := by
      unfold betweenQ
      rw [min_le_iff, le_max_iff]
      rcases hx with ⟨h1, h2⟩ | ⟨h1, h2⟩
      · exact ⟨Or.inr (by linarith), Or.inl h1⟩
      · exact ⟨Or.inl (by linarith), Or.inr h2⟩
    rw [IntersectWithSide_side1]
    split <;> rename_i hfb
    · refine ⟨betweenCV_left u v, ?_⟩
      show R.y - EPS ≤ u.y
      rw [fabs_lt_iff] at hfb
      rcases hx with ⟨h1, _⟩ | ⟨_, h2⟩
      · linarith
      · linarith [hfb.2]
    · have hdy : v.y - u.y ≠ 0 := by
        intro h0
        rw [h0] at hfb
        simp [fabs] at hfb
        linarith
      obtain ⟨ht0, ht1⟩ := div_param_unit u.y v.y R.y hdy hby
      refine ⟨⟨?_, ?_⟩, ?_⟩
      · rw [applyIntersection_x]
        exact lerp_betweenQ u.x v.x _ ht0 ht1
      · rw [applyIntersection_y]
        exact hby
      · show R.y - EPS ≤ (applyIntersection u v _ _ R.y).y
        rw [applyIntersection_y]
        linarith
  | 2 =>
    have hx : (u.x ≤ R.z ∧ ¬ v.x ≤ R.z) ∨ (¬ u.x ≤ R.z ∧ v.x ≤ R.z) := by
      by_cases hu : u.x ≤ R.z <;> by_cases hv : v.x ≤ R.z <;>
        simp [InsideBySide, hu, hv] at hne ⊢
    have hbx : betweenQ u.x v.x R.z := by
      unfold betweenQ
      rw [min_le_iff, le_max_iff]
      rcases hx with ⟨h1, h2⟩ | ⟨h1, h2⟩
      · exact ⟨Or.inl h1, Or.inr (by linarith)⟩
      · exact ⟨Or.inr h2, Or.inl (by linarith)⟩
    rw [IntersectWithSide_side2]
    split <;> rename_i hfb
    · refine ⟨betweenCV_left u v, ?_⟩
      show u.x ≤ R.z + EPS
      rw [fabs_lt_iff] at hfb
      rcases hx with ⟨h1, _⟩ | ⟨_, h2⟩
      · linarith
      · linarith [hfb.1]
    · have hdx : v.x - u.x ≠ 0 := by
        intro h0
        rw [h0] at hfb
        simp [fabs] at hfb
        linarith
      obtain ⟨ht0, ht1⟩ := div_param_unit u.x v.x R.z hdx hbx
      refine ⟨⟨?_, ?_⟩, ?_⟩
      · rw [applyIntersection_x]
        exact hbx
      · rw [applyIntersection_y]
        exact lerp_betweenQ u.y v.y _ ht0 ht1
      · show (applyIntersection u v _ R.z _).x ≤ R.z + EPS
        rw [applyIntersection_x]
        linarith
  | (n + 3) =>
    have hx : (u.y ≤ R.w ∧ ¬ v.y ≤ R.w) ∨ (¬ u.y ≤ R.w ∧ v.y ≤ R.w) := by
      rw [InsideBySide_side3, InsideBySide_side3] at hne
      by_cases hu : u.y ≤ R.w <;> by_cases hv : v.y ≤ R.w <;>
        simp [hu, hv] at hne ⊢
    have hby : betweenQ u.y v.y R.w := by
      unfold betweenQ
      rw [min_le_iff, le_max_iff]
      rcases hx with ⟨h1, h2⟩ | ⟨h1, h2⟩
      · exact ⟨Or.inl h1, Or.inr (by linarith)⟩
      · exact ⟨Or.inr h2, Or.inl (by linarith)⟩
    rw [IntersectWithSide_side3]
    rw [insideEPS_side3]
    split <;> rename_i hfb
    · refine ⟨betweenCV_left u v, ?_⟩
      rw [fabs_lt_iff] at hfb
      rcases hx with ⟨h1, _⟩ | ⟨_, h2⟩
      · linarith
      · linarith [hfb.1]
    · have hdy : v.y - u.y ≠ 0 := by
        intro h0
        rw [h0] at hfb
        simp [fabs] at hfb
        linarith
      obtain ⟨ht0, ht1⟩ := div_param_unit u.y v.y R.w hdy hby
      refine ⟨⟨?_, ?_⟩, ?_⟩
      · rw [applyIntersection_x]
        exact lerp_betweenQ u.x v.x _ ht0 ht1
      · rw [applyIntersection_y]
        exact hby
      · rw [applyIntersection_y]
        linarith

/-! ### Membership in a clip pass -/

/-- Every vertex emitted for one edge is either the inside endpoint Q or
the intersection of a status-crossing edge. -/
theorem mem_clipEdgeEmit (R : ImVec4) (side : ℕ) (P Q w : ClippedVert)
    (hw : w ∈ clipEdgeEmit R side P Q) :
    (w = Q ∧ InsideBySide Q R side = true) ∨
    (w = IntersectWithSide P Q side R ∧
     InsideBySide P R side ≠ InsideBySide Q R side) := by
  unfold clipEdgeEmit at hw
  by_cases hP : InsideBySide P R side = true <;>
    by_cases hQ : InsideBySide Q R side = true <;>
      simp [hP, hQ] at hw
  · exact Or.inl ⟨hw, hQ⟩
  · refine Or.inr ⟨hw, ?_⟩
    rw [hP, Bool.not_eq_true] at *
    simp [hP, hQ]
  · rcases hw with hw | hw
    · refine Or.inr ⟨hw, ?_⟩
      rw [Bool.not_eq_true] at hP
      simp [hP, hQ]
    · exact Or.inl ⟨hw, hQ⟩

/-- Every vertex of a clip pass output comes from two vertices of the
input polygon: it is an inside vertex of the input, or the intersection
of a status-crossing input edge. -/
theorem mem_clipPassAux (R : ImVec4) (side : ℕ) :
    ∀ (rest : List ClippedVert) (P first w : ClippedVert),
    w ∈ clipPassAux R side P rest first →
    ∃ u ∈ P :: rest ++ [first], ∃ v ∈ P :: rest ++ [first],
      ((w = v ∧ InsideBySide v R side = true) ∨
       (w = IntersectWithSide u v side R ∧
        InsideBySide u R side ≠ InsideBySide v R side))
  | [], P, first, w, hw => by
    simp only [clipPassAux] at hw
    exact ⟨P, by simp, first, by simp, mem_clipEdgeEmit R side P first w hw⟩
  | q :: rs, P, first, w, hw => by
    simp only [clipPassAux, List.mem_append] at hw
    rcases hw with hw | hw
    · exact ⟨P, by simp, q, by simp, mem_clipEdgeEmit R side P q w hw⟩
    · obtain ⟨u, hu, v, hv, hor⟩ := mem_clipPassAux R side rs q first w hw
      refine ⟨u, ?_, v, ?_, hor⟩ <;>
        · simp only [List.mem_cons, List.mem_append, List.mem_singleton] at *
          tauto

/-- Membership form for a whole pass: sources are input vertices. -/
theorem mem_clipPass (R : ImVec4) (side : ℕ) (poly : List ClippedVert)
    (w : ClippedVert) (hw : w ∈ clipPass R side poly) :
    ∃ u ∈ poly, ∃ v ∈ poly,
      ((w = v ∧ InsideBySide v R side = true) ∨
       (w = IntersectWithSide u v side R ∧
        InsideBySide u R side ≠ InsideBySide v R side)) := by
  match poly with
  | [] => simp [clipPass] at hw
  | h :: t =>
    obtain ⟨u, hu, v, hv, hor⟩ := mem_clipPassAux R side t h h w hw
    refine ⟨u, ?_, v, ?_, hor⟩ <;>
      · simp only [List.mem_cons, List.mem_append, List.mem_singleton] at *
        tauto

/-! ### EPS bounds are established and preserved by the passes -/

/-- The EPS-widened half-planes are closed under bounding boxes. -/
theorem insideEPS_of_between (s : ℕ) (R : ImVec4) (u v w : ClippedVert)
    (hu : insideEPS s R u) (hv : insideEPS s R v) (hb : betweenCV u v w) :
    insideEPS s R w := by
  obtain ⟨⟨hx1, hx2⟩, ⟨hy1, hy2⟩⟩ := hb
  match s with
  | 0 =>
    exact le_trans (le_min hu hv) hx1
  | 1 =>
    exact le_trans (le_min hu hv) hy1
  | 2 =>
    exact le_trans hx2 (max_le hu hv)
  | (n + 3) =>
    rw [insideEPS_side3] at *
    exact le_trans hy2 (max_le hu hv)

/-- An exactly inside vertex is inside the EPS-widened half-plane. -/
theorem insideEPS_of_inside (s : ℕ) (R : ImVec4) (w : ClippedVert)
    (h : InsideBySide w R s = true) : insideEPS s R w := by
  have hEPS : (0 : ℚ) < EPS := by norm_num [EPS]
  match s with
  | 0 =>
    have : R.x ≤ w.x := of_decide_eq_true h
    show R.x - EPS ≤ w.x
    linarith
  | 1 =>
    have : R.y ≤ w.y := of_decide_eq_true h
    show R.y - EPS ≤ w.y
    linarith
  | 2 =>
    have : w.x ≤ R.z := of_decide_eq_true h
    show w.x ≤ R.z + EPS
    linarith
  | (n + 3) =>
    rw [InsideBySide_side3] at h
    have : w.y ≤ R.w := of_decide_eq_true h
    rw [insideEPS_side3]
    linarith

/-- A clip pass establishes the EPS bound of its own side. -/
theorem clipPass_establishes (R : ImVec4) (side : ℕ)
    (poly : List ClippedVert) (w : ClippedVert)
    (hw : w ∈ clipPass R side poly) : insideEPS side R w := by
  obtain ⟨u, _, v, _, hor⟩ := mem_clipPass R side poly w hw
  rcases hor with ⟨heq, hin⟩ | ⟨heq, hne⟩
  · rw [heq]
    exact insideEPS_of_inside side R v hin
  · rw [heq]
    exact (IntersectWithSide_spec u v side R hne).2

/-- A clip pass preserves the EPS bound of any earlier side. -/
theorem clipPass_preserves (R : ImVec4) (s side : ℕ)
    (poly : List ClippedVert)
    (h : ∀ v ∈ poly, insideEPS s R v)
    (w : ClippedVert) (hw : w ∈ clipPass R side poly) : insideEPS s R w := by
  obtain ⟨u, hu, v, hv, hor⟩ := mem_clipPass R side poly w hw
  rcases hor with ⟨heq, _⟩ | ⟨heq, hne⟩
  · rw [heq]
    exact h v hv
  · rw [heq]
    exact insideEPS_of_between s R u v _ (h u hu) (h v hv)
      (IntersectWithSide_spec u v side R hne).1

/-! ### A triangle beyond one side is clipped away entirely -/

/-- Strict outsideness of one side is closed under bounding boxes. -/
theorem outside_of_between (s : ℕ) (R : ImVec4) (u v w : ClippedVert)
    (hu : InsideBySide u R s = false) (hv : InsideBySide v R s = false)
    (hb : betweenCV u v w) : InsideBySide w R s = false := by
  obtain ⟨⟨hx1, hx2⟩, ⟨hy1, hy2⟩⟩ := hb
  match s with
  | 0 =>
    simp only [InsideBySide, decide_eq_false_iff_not, not_le] at *
    exact lt_of_le_of_lt hx2 (max_lt hu hv)
  | 1 =>
    simp only [InsideBySide, decide_eq_false_iff_not, not_le] at *
    exact lt_of_le_of_lt hy2 (max_lt hu hv)
  | 2 =>
    simp only [InsideBySide, decide_eq_false_iff_not, not_le] at *
    exact lt_of_lt_of_le (lt_min hu hv) hx1
  | (n + 3) =>
    rw [InsideBySide_side3] at *
    simp only [decide_eq_false_iff_not, not_le] at *
    exact lt_of_lt_of_le (lt_min hu hv) hy1

/-- A clip pass preserves strict outsideness of any side. -/
theorem clipPass_preserves_outside (R : ImVec4) (s side : ℕ)
    (poly : List ClippedVert)
    (h : ∀ v ∈ poly, InsideBySide v R s = false)
    (w : ClippedVert) (hw : w ∈ clipPass R side poly) :
    InsideBySide w R s = false := by
  obtain ⟨u, hu, v, hv, hor⟩ := mem_clipPass R side poly w hw
  rcases hor with ⟨heq, _⟩ | ⟨heq, hne⟩
  · rw [heq]
    exact h v hv
  · rw [heq]
    exact outside_of_between s R u v _ (h u hu) (h v hv)
      (IntersectWithSide_spec u v side R hne).1

/-- A pass over a polygon that is entirely outside its side emits
nothing. -/
theorem clipPassAux_all_outside (R : ImVec4) (side : ℕ) :
    ∀ (rest : List ClippedVert) (P first : ClippedVert),
    InsideBySide P R side = false →
    (∀ v ∈ rest, InsideBySide v R side = false) →
    InsideBySide first R side = false →
    clipPassAux R side P rest first = []
  | [], P, first, hP, _, hf => by
    simp [clipPassAux, clipEdgeEmit, hP, hf]
  | q :: rs, P, first, hP, hrest, hf => by
    have hq : InsideBySide q R side = false := hrest q (by simp)
    have hrs : ∀ v ∈ rs, InsideBySide v R side = false := fun v hv =>
      hrest v (by simp [hv])
    simp [clipPassAux, clipEdgeEmit, hP, hq,
      clipPassAux_all_outside R side rs q first hq hrs hf]

/-- A polygon entirely outside one side is clipped to the empty polygon
by that pass. -/
theorem clipPass_all_outside (R : ImVec4) (side : ℕ)
    (poly : List ClippedVert)
    (h : ∀ v ∈ poly, InsideBySide v R side = false) :
    clipPass R side poly = [] := by
  match poly with
  | [] => rfl
  | x :: t =>
    exact clipPassAux_all_outside R side t x x (h x (by simp))
      (fun v hv => h v (by simp [hv])) (h x (by simp))

/-- C1 (amended): (i) every vertex emitted by the triangle clipper
satisfies the rect bounds within the tolerance EPS = 1e-6 (minX − EPS ≤ x
≤ maxX + EPS and minY − EPS ≤ y ≤ maxY + EPS) — the exact bounds of the
original claim can be violated by up to EPS through the small-delta
fallback; and (ii) a triangle wholly outside one of the four clip
half-planes (all three vertices strictly beyond one side) appends no
vertices and no indices. -/
theorem C1_amended_bounds_and_outside :
    (∀ (a b c : ClippedVert) (R : ImVec4) (w : ClippedVert),
       w ∈ clipTriPoly a b c R →
       R.x - EPS ≤ w.x ∧ w.x ≤ R.z + EPS ∧
       R.y - EPS ≤ w.y ∧ w.y ≤ R.w + EPS) ∧
    (∀ (a b c : ClippedVert) (R : ImVec4) (s : ℕ), s < 4 →
       (∀ v ∈ [a, b, c], InsideBySide v R s = false) →
       ∀ (out_v : List ClippedVert) (out_i : List ℕ),
       EmitClippedTri a b c R out_v out_i = (out_v, out_i)) := by
  constructor
  · intro a b c R w hw
    set P1 := clipPass R 0 [a, b, c] with hP1
    set P2 := clipPass R 1 P1 with hP2
    set P3 := clipPass R 2 P2 with hP3
    have h1 : ∀ v ∈ P1, insideEPS 0 R v := fun v hv =>
      clipPass_establishes R 0 [a, b, c] v hv
    have h2a : ∀ v ∈ P2, insideEPS 0 R v := fun v hv =>
      clipPass_preserves R 0 1 P1 h1 v hv
    have h2b : ∀ v ∈ P2, insideEPS 1 R v := fun v hv =>
      clipPass_establishes R 1 P1 v hv
    have h3a : ∀ v ∈ P3, insideEPS 0 R v := fun v hv =>
      clipPass_preserves R 0 2 P2 h2a v hv
    have h3b : ∀ v ∈ P3, insideEPS 1 R v := fun v hv =>
      clipPass_preserves R 1 2 P2 h2b v hv
    have h3c : ∀ v ∈ P3, insideEPS 2 R v := fun v hv =>
      clipPass_establishes R 2 P2 v hv
    have hw4 : w ∈ clipPass R 3 P3 := hw
    refine ⟨clipPass_preserves R 0 3 P3 h3a w hw4,
      clipPass_preserves R 2 3 P3 h3c w hw4,
      clipPass_preserves R 1 3 P3 h3b w hw4,
      clipPass_establishes R 3 P3 w hw4⟩
  · intro a b c R s hs4 hout out_v out_i
    have hempty : clipTriPoly a b c R = [] := by
      interval_cases s
      · unfold clipTriPoly
        rw [clipPass_all_outside R 0 [a, b, c] hout]
        rfl
      · unfold clipTriPoly
        rw [clipPass_all_outside R 1 _ (fun v hv =>
          clipPass_preserves_outside R 1 0 [a, b, c] hout v hv)]
        rfl
      · unfold clipTriPoly
        rw [clipPass_all_outside R 2 _ (fun v hv =>
          clipPass_preserves_outside R 2 1 _ (fun u hu =>
            clipPass_preserves_outside R 2 0 [a, b, c] hout u hu) v hv)]
        rfl
      · unfold clipTriPoly
        rw [clipPass_all_outside R 3 _ (fun v hv =>
          clipPass_preserves_outside R 3 2 _ (fun u hu =>
            clipPass_preserves_outside R 3 1 _ (fun t ht =>
              clipPass_preserves_outside R 3 0 [a, b, c] hout t ht) u hu) v hv)]
    unfold EmitClippedTri
    rw [hempty]
    simp

/-- C1 witness: the amended theorem applied at concrete inputs — the
bounds at a concrete emitted vertex of the scenario clip, and the empty
output for a concrete triangle strictly left of the rect. -/
theorem C1_amended_witness :
    (R₂.x - EPS ≤ (10 : ℚ) ∧ (10 : ℚ) ≤ R₂.z + EPS ∧
     R₂.y - EPS ≤ (10 : ℚ) ∧ (10 : ℚ) ≤ R₂.w + EPS) ∧
    EmitClippedTri (mkV (-5) 1) (mkV (-3) 2) (mkV (-4) 3) R₀ [] [] =
      ([], []) := by
  constructor
  · have hmem : (⟨10, 10, 0, 1, 0, 0, 0⟩ : ClippedVert) ∈
        clipTriPoly t2a t2b t2c R₂ := by decide
    exact C1_amended_bounds_and_outside.1 t2a t2b t2c R₂ _ hmem
  · exact C1_amended_bounds_and_outside.2 (mkV (-5) 1) (mkV (-3) 2)
      (mkV (-4) 3) R₀ 0 (by norm_num) (by decide) [] []

/-! ### Claim C9: the scratch polygon never exceeds 7 vertices

The key invariant: with respect to every axis-aligned threshold predicate,
the cyclic inside/outside status sequence of the polygon has at most two
sign changes.  A pass then emits at most one vertex more than its input
has, giving the chain 3, 4, 5, 6, 7 across the four passes. -/

/-- Count of adjacent status changes in a Bool list (linear). -/
def chg : List Bool → ℕ
  | [] => 0
  | [_] => 0
  | a :: b :: t => (if a ≠ b then 1 else 0) + chg (b :: t)

/-- Cyclic change count: close the list with its own head. -/
def cyclicChg (l : List Bool) : ℕ := chg (l ++ l.take 1)

/-- Status patterns a single clip-pass edge can emit, for endpoint
statuses a then b: nothing, one vertex of either endpoint status, or an
intersection followed by the endpoint Q (status b). -/
def BlockOK (a b : Bool) (blk : List Bool) : Prop :=
  blk = [] ∨ blk = [a] ∨ blk = [b] ∨ blk = [a, b] ∨ blk = [b, b]

/-- EmitStat prev l out: walking edges whose second-endpoint statuses are
l, starting from a vertex of status prev, the pass emits a status list
out made of per-edge blocks. -/
inductive EmitStat : Bool → List Bool → List Bool → Prop where
  | nil (prev : Bool) : EmitStat prev [] []
  | cons (prev b : Bool) (blk rest out : List Bool) :
      BlockOK prev b blk → EmitStat b rest out →
      EmitStat prev (b :: rest) (blk ++ out)

theorem chg_cons_cons (a b : Bool) (t : List Bool) :
    chg (a :: b :: t) = (if a ≠ b then 1 else 0) + chg (b :: t) := rfl

theorem neq_triangle (x y h : Bool) :
    (if x ≠ h then 1 else 0) ≤
      (if x ≠ y then (1 : ℕ) else 0) + (if y ≠ h then 1 else 0) := by
  cases x <;> cases y <;> cases h <;> decide

/-- Replacing the head of a list changes the change count by at most the
disagreement of the two heads. -/
theorem chg_head_swap (x y : Bool) (m : List Bool) :
    chg (x :: m) ≤ (if x ≠ y then 1 else 0) + chg (y :: m) := by
  match m with
  | [] => simp [chg]
  | h :: t =>
    rw [chg_cons_cons, chg_cons_cons]
    have := neq_triangle x y h
    omega

/-- Core monotonicity: the emitted status list has no more changes than
the edge status list, measured with a fixed lead-in and lead-out. -/
theorem emitStat_chg (prev : Bool) (l out : List Bool)
    (he : EmitStat prev l out) (z : Bool) :
    chg (prev :: (out ++ [z])) ≤ chg (prev :: (l ++ [z])) := by
  induction he with
  | nil prev => exact le_refl _
  | cons prev b blk rest out hblk _ ih =>
    have hR : chg (prev :: ((b :: rest) ++ [z])) =
        (if prev ≠ b then 1 else 0) + chg (b :: (rest ++ [z])) := rfl
    rcases hblk with h | h | h | h | h <;> subst h
    · calc chg (prev :: ([] ++ out ++ [z]))
          ≤ (if prev ≠ b then 1 else 0) + chg (b :: (out ++ [z])) := by
            simpa using chg_head_swap prev b (out ++ [z])
        _ ≤ _ := by rw [hR]; omega
    · calc chg (prev :: ([prev] ++ out ++ [z]))
          = chg (prev :: (out ++ [z])) := by simp [chg_cons_cons]
        _ ≤ (if prev ≠ b then 1 else 0) + chg (b :: (out ++ [z])) :=
            chg_head_swap prev b (out ++ [z])
        _ ≤ _ := by rw [hR]; omega
    · calc chg (prev :: ([b] ++ out ++ [z]))
          = (if prev ≠ b then 1 else 0) + chg (b :: (out ++ [z])) := rfl
        _ ≤ _ := by rw [hR]; omega
    · calc chg (prev :: ([prev, b] ++ out ++ [z]))
          = (if prev ≠ b then 1 else 0) + chg (b :: (out ++ [z])) := by
            simp [chg_cons_cons]
        _ ≤ _ := by rw [hR]; omega
    · calc chg (prev :: ([b, b] ++ out ++ [z]))
          = (if prev ≠ b then 1 else 0) + chg (b :: (out ++ [z])) := by
            simp [chg_cons_cons]
        _ ≤ _ := by rw [hR]; omega

/-- Changing the final element changes the change count by at most the
disagreement of the two last elements. -/
theorem chg_swap_last (a b : Bool) :
    ∀ (m : List Bool) (x : Bool),
    chg (x :: (m ++ [a])) ≤ chg (x :: (m ++ [b])) + (if a ≠ b then 1 else 0)
  | [], x => by
    simp only [List.nil_append, chg]
    have := neq_triangle x b a
    have heq : (if b ≠ a then (1 : ℕ) else 0) = (if a ≠ b then 1 else 0) := by
      cases a <;> cases b <;> decide
    omega
  | h :: t, x => by
    show (if x ≠ h then 1 else 0) + chg (h :: (t ++ [a])) ≤
      (if x ≠ h then 1 else 0) + chg (h :: (t ++ [b])) +
        (if a ≠ b then 1 else 0)
    have := chg_swap_last a b t h
    omega

/-- The cyclic change count of a list is bounded by the linear count with
any common lead-in and lead-out value. -/
theorem cyclicChg_le_extended (z : Bool) (out : List Bool) :
    cyclicChg out ≤ chg (z :: (out ++ [z])) := by
  match out with
  | [] => simp [cyclicChg, chg]
  | oh :: ot =>
    show chg ((oh :: ot) ++ [oh]) ≤ chg (z :: ((oh :: ot) ++ [z]))
    have h1 : chg (oh :: ot ++ [oh]) ≤
        chg (oh :: ot ++ [z]) + (if oh ≠ z then 1 else 0) :=
      chg_swap_last oh z ot oh
    have h2 : chg (z :: ((oh :: ot) ++ [z])) =
        (if z ≠ oh then 1 else 0) + chg (oh :: (ot ++ [z])) := rfl
    have heq : (if oh ≠ z then (1 : ℕ) else 0) = (if z ≠ oh then 1 else 0) := by
      cases oh <;> cases z <;> decide
    simp only [List.cons_append] at *
    omega

/-- Duplicating the final element does not change the change count. -/
theorem chg_dup_last (x : Bool) : ∀ m : List Bool,
    chg (m ++ [x, x]) = chg (m ++ [x])
  | [] => by simp [chg]
  | [a] => by simp [chg]
  | a :: b :: t => by
    rw [List.cons_append, List.cons_append, chg_cons_cons,
      List.cons_append, List.cons_append, chg_cons_cons]
    rw [← List.cons_append, ← List.cons_append, chg_dup_last x (b :: t)]

/-- A constant list has no changes. -/
theorem chg_all_eq (x : Bool) : ∀ l : List Bool, (∀ y ∈ l, y = x) → chg l = 0
  | [], _ => rfl
  | [_], _ => rfl
  | a :: b :: t, h => by
    have ha : a = x := h a (by simp)
    have hb : b = x := h b (by simp)
    rw [chg_cons_cons, chg_all_eq x (b :: t) (fun y hy => h y (by simp at hy ⊢; tauto))]
    simp [ha, hb]

/-- An axis-aligned threshold predicate: a half-plane bounded by a
vertical or horizontal line, in either direction. -/
structure AxisPred where
  useX : Bool
  isLower : Bool
  c : ℚ

/-- Evaluate an axis predicate on a vertex. -/
def evalAP (ap : AxisPred) (w : ClippedVert) : Bool :=
  if ap.useX then
    (if ap.isLower then decide (ap.c ≤ w.x) else decide (w.x ≤ ap.c))
  else
    (if ap.isLower then decide (ap.c ≤ w.y) else decide (w.y ≤ ap.c))

/-- The four clip sides are axis predicates. -/
def sideAP (side : ℕ) (R : ImVec4) : AxisPred :=
  match side with
  | 0 => ⟨true, true, R.x⟩
  | 1 => ⟨false, true, R.y⟩
  | 2 => ⟨true, false, R.z⟩
  | _ => ⟨false, false, R.w⟩

theorem evalAP_sideAP (side : ℕ) (R : ImVec4) (w : ClippedVert) :
    evalAP (sideAP side R) w = InsideBySide w R side := by
  match side with
  | 0 => rfl
  | 1 => rfl
  | 2 => rfl
  | (n + 3) => rfl

/-- Axis predicates are constant on bounding boxes whose two generators
agree on them. -/
theorem evalAP_between (ap : AxisPred) (u v w : ClippedVert)
    (hb : betweenCV u v w) (he : evalAP ap u = evalAP ap v) :
    evalAP ap w = evalAP ap u := by
  obtain ⟨⟨hx1, hx2⟩, ⟨hy1, hy2⟩⟩ := hb
  obtain ⟨ux, lo, c⟩ := ap
  cases ux <;> cases lo <;>
    simp only [evalAP, if_true, if_false, Bool.false_eq_true] at he ⊢
  · by_cases h1 : u.y ≤ c
    · by_cases h2 : v.y ≤ c
      · have hw : w.y ≤ c := le_trans hy2 (max_le h1 h2)
        simp [h1, hw]
      · simp [h1, h2] at he
    · by_cases h2 : v.y ≤ c
      · simp [h1, h2] at he
      · have hw : ¬ w.y ≤ c := by
          push_neg at h1 h2 ⊢
          exact lt_of_lt_of_le (lt_min h1 h2) hy1
        simp [hw, h1]
  · by_cases h1 : c ≤ u.y
    · by_cases h2 : c ≤ v.y
      · have hw : c ≤ w.y := le_trans (le_min h1 h2) hy1
        simp [h1, hw]
      · simp [h1, h2] at he
    · by_cases h2 : c ≤ v.y
      · simp [h1, h2] at he
      · have hw : ¬ c ≤ w.y := by
          push_neg at h1 h2 ⊢
          exact lt_of_le_of_lt hy2 (max_lt h1 h2)
        simp [hw, h1]
  · by_cases h1 : u.x ≤ c
    · by_cases h2 : v.x ≤ c
      · have hw : w.x ≤ c := le_trans hx2 (max_le h1 h2)
        simp [h1, hw]
      · simp [h1, h2] at he
    · by_cases h2 : v.x ≤ c
      · simp [h1, h2] at he
      · have hw : ¬ w.x ≤ c := by
          push_neg at h1 h2 ⊢
          exact lt_of_lt_of_le (lt_min h1 h2) hx1
        simp [hw, h1]
  · by_cases h1 : c ≤ u.x
    · by_cases h2 : c ≤ v.x
      · have hw : c ≤ w.x := le_trans (le_min h1 h2) hx1
        simp [h1, hw]
      · simp [h1, h2] at he
    · by_cases h2 : c ≤ v.x
      · simp [h1, h2] at he
      · have hw : ¬ c ≤ w.x := by
          push_neg at h1 h2 ⊢
          exact lt_of_le_of_lt hx2 (max_lt h1 h2)
        simp [hw, h1]

/-- The status of an emitted intersection under any axis predicate is one
of the statuses of the edge endpoints. -/
theorem evalAP_intersect (ap : AxisPred) (u v : ClippedVert) (side : ℕ)
    (R : ImVec4)
    (hne : InsideBySide u R side ≠ InsideBySide v R side) :
    evalAP ap (IntersectWithSide u v side R) = evalAP ap u ∨
    evalAP ap (IntersectWithSide u v side R) = evalAP ap v := by
  by_cases he : evalAP ap u = evalAP ap v
  · exact Or.inl (evalAP_between ap u v _
      (IntersectWithSide_spec u v side R hne).1 he)
  · rcases Bool.eq_false_or_eq_true (evalAP ap (IntersectWithSide u v side R))
      with h | h <;>
      rcases Bool.eq_false_or_eq_true (evalAP ap u) with h1 | h1 <;>
      rcases Bool.eq_false_or_eq_true (evalAP ap v) with h2 | h2 <;>
      simp_all

/-- The status list an edge emits is one of the allowed block shapes. -/
theorem blockOK_clipEdgeEmit (ap : AxisPred) (R : ImVec4) (side : ℕ)
    (P Q : ClippedVert) :
    BlockOK (evalAP ap P) (evalAP ap Q)
      ((clipEdgeEmit R side P Q).map (evalAP ap)) := by
  unfold clipEdgeEmit BlockOK
  by_cases hP : InsideBySide P R side = true <;>
    by_cases hQ : InsideBySide Q R side = true
  · simp [hP, hQ]
  · have hne : InsideBySide P R side ≠ InsideBySide Q R side := by
      simp [hP, hQ]
    rcases evalAP_intersect ap P Q side R hne with h | h <;>
      simp [hP, hQ, h]
  · have hne : InsideBySide P R side ≠ InsideBySide Q R side := by
      simp [hP, hQ]
    rcases evalAP_intersect ap P Q side R hne with h | h <;>
      simp [hP, hQ, h]
  · simp [hP, hQ]

/-- The pass loop emits per-edge blocks: its status output satisfies the
EmitStat relation over the edge status chain. -/
theorem emitStat_clipPassAux (ap : AxisPred) (R : ImVec4) (side : ℕ) :
    ∀ (rest : List ClippedVert) (P first : ClippedVert),
    EmitStat (evalAP ap P) ((rest ++ [first]).map (evalAP ap))
      ((clipPassAux R side P rest first).map (evalAP ap))
  | [], P, first => by
    have h := EmitStat.cons (evalAP ap P) (evalAP ap first)
      ((clipEdgeEmit R side P first).map (evalAP ap)) [] []
      (blockOK_clipEdgeEmit ap R side P first) (EmitStat.nil _)
    simpa [clipPassAux] using h
  | q :: rs, P, first => by
    have h := EmitStat.cons (evalAP ap P) (evalAP ap q)
      ((clipEdgeEmit R side P q).map (evalAP ap))
      ((rs ++ [first]).map (evalAP ap))
      ((clipPassAux R side q rs first).map (evalAP ap))
      (blockOK_clipEdgeEmit ap R side P q)
      (emitStat_clipPassAux ap R side rs q first)
    simpa [clipPassAux] using h

/-- Every status invariant of at most two cyclic changes is preserved by
every clip pass, for every axis predicate. -/
theorem cyclicChg_clipPass (ap : AxisPred) (R : ImVec4) (side : ℕ)
    (poly : List ClippedVert)
    (h : cyclicChg (poly.map (evalAP ap)) ≤ 2) :
    cyclicChg ((clipPass R side poly).map (evalAP ap)) ≤ 2 := by
  match poly with
  | [] => simpa [clipPass] using h
  | h0 :: t =>
    have hes := emitStat_clipPassAux ap R side t h0 h0
    have hG := emitStat_chg (evalAP ap h0) _ _ hes (evalAP ap h0)
    have hle := cyclicChg_le_extended (evalAP ap h0)
      ((clipPassAux R side h0 t h0).map (evalAP ap))
    have hre : chg (evalAP ap h0 :: (((t ++ [h0]).map (evalAP ap)) ++ [evalAP ap h0])) =
        cyclicChg ((h0 :: t).map (evalAP ap)) := by
      rw [List.map_append, List.append_assoc]
      show chg ((evalAP ap h0 :: t.map (evalAP ap)) ++ [evalAP ap h0, evalAP ap h0]) = _
      rw [chg_dup_last (evalAP ap h0) (evalAP ap h0 :: t.map (evalAP ap))]
      rfl
    show cyclicChg ((clipPassAux R side h0 t h0).map (evalAP ap)) ≤ 2
    calc cyclicChg ((clipPassAux R side h0 t h0).map (evalAP ap))
        ≤ chg (evalAP ap h0 :: (((clipPassAux R side h0 t h0).map (evalAP ap)) ++ [evalAP ap h0])) := hle
      _ ≤ chg (evalAP ap h0 :: (((t ++ [h0]).map (evalAP ap)) ++ [evalAP ap h0])) := hG
      _ = cyclicChg ((h0 :: t).map (evalAP ap)) := hre
      _ ≤ 2 := h

/-- Length of the block emitted by one edge. -/
theorem length_clipEdgeEmit (R : ImVec4) (side : ℕ) (P Q : ClippedVert) :
    (clipEdgeEmit R side P Q).length =
      (if InsideBySide Q R side = true then 1 else 0) +
      (if InsideBySide P R side ≠ InsideBySide Q R side then 1 else 0) := by
  unfold clipEdgeEmit
  by_cases hP : InsideBySide P R side = true <;>
    by_cases hQ : InsideBySide Q R side = true <;>
    simp [hP, hQ]

/-- Length of a clip pass: one vertex per inside vertex plus one per
status change around the polygon. -/
theorem length_clipPassAux (R : ImVec4) (side : ℕ) :
    ∀ (rest : List ClippedVert) (P first : ClippedVert),
    (clipPassAux R side P rest first).length =
      (((rest ++ [first]).map
          (fun v => InsideBySide v R side)).count true) +
      chg (InsideBySide P R side ::
        (rest ++ [first]).map (fun v => InsideBySide v R side))
  | [], P, first => by
    simp only [clipPassAux, List.nil_append, List.map_cons, List.map_nil]
    rw [length_clipEdgeEmit]
    by_cases hP : InsideBySide P R side = true <;>
      by_cases hf : InsideBySide first R side = true <;>
      simp [hP, hf, chg, List.count_cons]
  | q :: rs, P, first => by
    simp only [clipPassAux, List.length_append, List.cons_append,
      List.map_cons]
    rw [length_clipEdgeEmit, length_clipPassAux R side rs q first,
      chg_cons_cons, List.count_cons]
    by_cases hPq : InsideBySide P R side = InsideBySide q R side <;>
      by_cases hq : InsideBySide q R side = true <;>
      simp [hPq, hq] <;> omega

/-- One pass emits at most one vertex more than its input polygon has,
provided the input status sequence has at most two cyclic changes. -/
theorem length_clipPass_le (R : ImVec4) (side : ℕ)
    (poly : List ClippedVert)
    (h : cyclicChg (poly.map (fun v => InsideBySide v R side)) ≤ 2) :
    (clipPass R side poly).length ≤ poly.length + 1 := by
  match poly with
  | [] => simp [clipPass]
  | h0 :: t =>
    show (clipPassAux R side h0 t h0).length ≤ (h0 :: t).length + 1
    rw [length_clipPassAux R side t h0 h0]
    set st := fun v => InsideBySide v R side with hst
    have hcyc : chg (st h0 :: (t ++ [h0]).map st) =
        cyclicChg ((h0 :: t).map st) := by
      rw [List.map_append]
      rfl
    have hcount : ((t ++ [h0]).map st).count true =
        ((h0 :: t).map st).count true := by
      simp only [List.map_append, List.map_cons, List.map_nil,
        List.count_append, List.count_cons]
      simp [add_comm]
    rw [hcyc, hcount]
    have hlen : ((h0 :: t).map st).length = (h0 :: t).length :=
      List.length_map _ _
    by_cases hall : ∀ y ∈ (h0 :: t).map st, y = true
    · have hz : cyclicChg ((h0 :: t).map st) = 0 := by
        unfold cyclicChg
        apply chg_all_eq true
        intro y hy
        rcases List.mem_append.mp hy with hy | hy
        · exact hall y hy
        · exact hall y (List.mem_of_mem_take hy)
      have hcle : ((h0 :: t).map st).count true ≤ (h0 :: t).length := by
        rw [← hlen]
        exact List.count_le_length _ _
      omega
    · push_neg at hall
      obtain ⟨y, hy, hyne⟩ := hall
      have hcnt : ((h0 :: t).map st).count true < ((h0 :: t).map st).length := by
        rcases lt_or_eq_of_le (List.count_le_length true ((h0 :: t).map st))
          with hlt | heq
        · exact hlt
        · exfalso
          exact hyne ((List.count_eq_length.mp heq y hy).symm)
      rw [hlen] at hcnt
      omega

/-- C9: across the four Sutherland–Hodgman passes the intermediate
polygon grows by at most one vertex per pass, so it never exceeds
4, 5, 6 and finally 7 vertices; in particular the emitted clipped polygon
has at most 7 vertices and the fixed 8-slot scratch arrays of the C code
are never over-indexed. -/
theorem C9_scratch_bound (a b c : ClippedVert) (R : ImVec4) :
    (clipPass R 0 [a, b, c]).length ≤ 4 ∧
    (clipPass R 1 (clipPass R 0 [a, b, c])).length ≤ 5 ∧
    (clipPass R 2 (clipPass R 1 (clipPass R 0 [a, b, c]))).length ≤ 6 ∧
    (clipTriPoly a b c R).length ≤ 7 ∧
    ∀ (out_v : List ClippedVert) (out_i : List ℕ),
      (EmitClippedTri a b c R out_v out_i).1.length ≤ out_v.length + 7 := by
  have inv0 : ∀ ap : AxisPred, cyclicChg ([a, b, c].map (evalAP ap)) ≤ 2 := by
    intro ap
    have h3 : ∀ x y z : Bool, chg [x, y, z, x] ≤ 2 := by decide
    exact h3 _ _ _
  have side_of : ∀ (side : ℕ) (poly : List ClippedVert),
      (∀ ap : AxisPred, cyclicChg (poly.map (evalAP ap)) ≤ 2) →
      cyclicChg (poly.map (fun v => InsideBySide v R side)) ≤ 2 := by
    intro side poly hp
    have := hp (sideAP side R)
    have hfe : poly.map (evalAP (sideAP side R)) =
        poly.map (fun v => InsideBySide v R side) :=
      List.map_congr_left (fun w _ => evalAP_sideAP side R w)
    rwa [hfe] at this
  have inv1 : ∀ ap : AxisPred,
      cyclicChg ((clipPass R 0 [a, b, c]).map (evalAP ap)) ≤ 2 :=
    fun ap => cyclicChg_clipPass ap R 0 _ (inv0 ap)
  have inv2 : ∀ ap : AxisPred,
      cyclicChg ((clipPass R 1 (clipPass R 0 [a, b, c])).map (evalAP ap)) ≤ 2 :=
    fun ap => cyclicChg_clipPass ap R 1 _ (inv1 ap)
  have inv3 : ∀ ap : AxisPred,
      cyclicChg ((clipPass R 2 (clipPass R 1 (clipPass R 0 [a, b, c]))).map
        (evalAP ap)) ≤ 2 :=
    fun ap => cyclicChg_clipPass ap R 2 _ (inv2 ap)
  have l1 : (clipPass R 0 [a, b, c]).length ≤ 4 := by
    have := length_clipPass_le R 0 [a, b, c] (side_of 0 _ inv0)
    simpa using this
  have l2 : (clipPass R 1 (clipPass R 0 [a, b, c])).length ≤ 5 := by
    have := length_clipPass_le R 1 _ (side_of 1 _ inv1)
    omega
  have l3 : (clipPass R 2 (clipPass R 1 (clipPass R 0 [a, b, c]))).length ≤ 6 := by
    have := length_clipPass_le R 2 _ (side_of 2 _ inv2)
    omega
  have l4 : (clipTriPoly a b c R).length ≤ 7 := by
    have := length_clipPass_le R 3 _ (side_of 3 _ inv3)
    unfold clipTriPoly
    omega
  refine ⟨l1, l2, l3, l4, ?_⟩
  intro out_v out_i
  simp only [EmitClippedTri]
  split
  · simp
  · simp only [List.length_append]
    omega

/-! ### Claim C10: vertex and index bookkeeping of EmitClippedTri -/

/-- Length of the fan triangulation: three indices per triangle. -/
theorem length_fanIndices (base : ℕ) : ∀ k : ℕ,
    ((List.range k).flatMap
      (fun j => [base % 65536, (base + j + 1) % 65536,
                 (base + j + 2) % 65536])).length = 3 * k
  | 0 => rfl
  | k + 1 => by
    rw [List.range_succ, List.flatMap_append, List.length_append,
      length_fanIndices base k]
    simp [Nat.mul_succ]

theorem fanIndices_length (base n : ℕ) :
    (fanIndices base n).length = 3 * (n - 2) :=
  length_fanIndices base (n - 2)

/-- Without WORD overflow, every fan index lies in the window of the
vertices the call appends. -/
theorem fanIndices_mem (base n : ℕ) (h3 : 3 ≤ n) (hov : base + n ≤ 65536) :
    ∀ i ∈ fanIndices base n, base ≤ i ∧ i ≤ base + n - 1 := by
  intro i hi
  unfold fanIndices at hi
  obtain ⟨j, hj, hji⟩ := List.mem_flatMap.mp hi
  rw [List.mem_range] at hj
  have hb : base % 65536 = base := Nat.mod_eq_of_lt (by omega)
  have h1 : (base + j + 1) % 65536 = base + j + 1 := Nat.mod_eq_of_lt (by omega)
  have h2 : (base + j + 2) % 65536 = base + j + 2 := Nat.mod_eq_of_lt (by omega)
  rw [hb, h1, h2] at hji
  simp only [List.mem_cons, List.mem_singleton, List.not_mem_nil, or_false]
    at hji
  rcases hji with rfl | rfl | rfl <;> omega

/-- C10: a call of the triangle clipper appends a number of indices that
is a multiple of 3; and whenever the clipped polygon has n ≥ 3 vertices
and the accumulated vertex count stays within the 16-bit index range, the
call appends exactly the n polygon vertices and 3(n−2) indices, and every
appended index points into the window of vertices appended by this very
call. -/
theorem C10_emit_bookkeeping (a b c : ClippedVert) (R : ImVec4)
    (out_v : List ClippedVert) (out_i : List ℕ) :
    ((EmitClippedTri a b c R out_v out_i).2.length - out_i.length) % 3 = 0 ∧
    (3 ≤ (clipTriPoly a b c R).length →
     out_v.length + (clipTriPoly a b c R).length ≤ 65536 →
     (EmitClippedTri a b c R out_v out_i).1 = out_v ++ clipTriPoly a b c R ∧
     (EmitClippedTri a b c R out_v out_i).1.length =
       out_v.length + (clipTriPoly a b c R).length ∧
     (EmitClippedTri a b c R out_v out_i).2.length =
       out_i.length + 3 * ((clipTriPoly a b c R).length - 2) ∧
     ∀ i ∈ (EmitClippedTri a b c R out_v out_i).2.drop out_i.length,
       out_v.length ≤ i ∧ i ≤ out_v.length + (clipTriPoly a b c R).length - 1) := by
  constructor
  · simp only [EmitClippedTri]
    split
    · simp
    · rw [List.length_append, fanIndices_length]
      omega
  · intro h3 hov
    have hn : ¬ (clipTriPoly a b c R).length < 3 := by omega
    have hbase : out_v.length % 65536 = out_v.length :=
      Nat.mod_eq_of_lt (by omega)
    have hemit : EmitClippedTri a b c R out_v out_i =
        (out_v ++ clipTriPoly a b c R,
         out_i ++ fanIndices (out_v.length % 65536) (clipTriPoly a b c R).length) := by
      simp only [EmitClippedTri]
      rw [if_neg hn]
    rw [hemit]
    refine ⟨rfl, by simp, ?_, ?_⟩
    · rw [List.length_append, fanIndices_length]
    · intro i hi
      rw [List.drop_append_of_le_length (le_refl _), List.drop_length,
        List.nil_append] at hi
      rw [hbase] at hi
      exact fanIndices_mem out_v.length (clipTriPoly a b c R).length h3 hov i hi

/-- C10 witness: the bookkeeping theorem at the concrete scenario clip
(3 surviving vertices, empty accumulators), hypotheses discharged by
computation. -/
theorem C10_emit_bookkeeping_witness :
    (EmitClippedTri t2a t2b t2c R₂ [] []).1 = [] ++ clipTriPoly t2a t2b t2c R₂ ∧
    (EmitClippedTri t2a t2b t2c R₂ [] []).1.length =
      List.length ([] : List ClippedVert) + (clipTriPoly t2a t2b t2c R₂).length ∧
    (EmitClippedTri t2a t2b t2c R₂ [] []).2.length =
      List.length ([] : List ℕ) + 3 * ((clipTriPoly t2a t2b t2c R₂).length - 2) ∧
    ∀ i ∈ (EmitClippedTri t2a t2b t2c R₂ [] []).2.drop (List.length ([] : List ℕ)),
      List.length ([] : List ClippedVert) ≤ i ∧
      i ≤ List.length ([] : List ClippedVert) + (clipTriPoly t2a t2b t2c R₂).length - 1 :=
  (C10_emit_bookkeeping t2a t2b t2c R₂ [] []).2 (by decide) (by decide)

/-! ### Claim C6: pipeline state backup (Capture and Restore)

The D3D7 device is external; its Get and Set calls are embedded as reads
and writes of a device-state record.  GetTexture retains a reference
(the source comment: AddRef, must Release later) and Restore releases it
after writing the texture back, so reference counts are tracked per
surface id. -/

/-- The state values the backend touches on the device, plus per-surface
reference counts. -/
structure D3DDeviceState where
  world : ℕ
  view : ℕ
  proj : ℕ
  rs_alpha_blend : ℕ
  rs_src_blend : ℕ
  rs_dst_blend : ℕ
  rs_zenable : ℕ
  rs_zwrite : ℕ
  rs_cullmode : ℕ
  rs_lighting : ℕ
  rs_shade : ℕ
  rs_fog : ℕ
  rs_clipping : ℕ
  tex0 : Option ℕ
  tss0_colorop : ℕ
  tss0_colorarg1 : ℕ
  tss0_colorarg2 : ℕ
  tss0_alphaop : ℕ
  tss0_alphaarg1 : ℕ
  tss0_alphaarg2 : ℕ
  tss1_colorop : ℕ
  tss1_alphaop : ℕ
  viewport : ℕ
  refCounts : ℕ → ℤ

/-- The snapshot struct ImGui_ImplDX7_StateBackup. -/
structure ImGui_ImplDX7_StateBackup where
  world : ℕ
  view : ℕ
  proj : ℕ
  rs_alpha_blend : ℕ
  rs_src_blend : ℕ
  rs_dst_blend : ℕ
  rs_zenable : ℕ
  rs_zwrite : ℕ
  rs_cullmode : ℕ
  rs_lighting : ℕ
  rs_shade : ℕ
  rs_fog : ℕ
  rs_clipping : ℕ
  tex0 : Option ℕ
  tss0_colorop : ℕ
  tss0_colorarg1 : ℕ
  tss0_colorarg2 : ℕ
  tss0_alphaop : ℕ
  tss0_alphaarg1 : ℕ
  tss0_alphaarg2 : ℕ
  tss1_colorop : ℕ
  tss1_alphaop : ℕ
  viewport : ℕ
deriving DecidableEq

/-- Capture reads every touched value into the snapshot; GetTexture
retains (increments) the reference of the bound texture. -/
def ImGui_ImplDX7_StateBackup.Capture (d : D3DDeviceState) :
    ImGui_ImplDX7_StateBackup × D3DDeviceState :=
  ({ world := d.world, view := d.view, proj := d.proj
     rs_alpha_blend := d.rs_alpha_blend, rs_src_blend := d.rs_src_blend
     rs_dst_blend := d.rs_dst_blend, rs_zenable := d.rs_zenable
     rs_zwrite := d.rs_zwrite, rs_cullmode := d.rs_cullmode
     rs_lighting := d.rs_lighting, rs_shade := d.rs_shade
     rs_fog := d.rs_fog, rs_clipping := d.rs_clipping
     tex0 := d.tex0
     tss0_colorop := d.tss0_colorop, tss0_colorarg1 := d.tss0_colorarg1
     tss0_colorarg2 := d.tss0_colorarg2, tss0_alphaop := d.tss0_alphaop
     tss0_alphaarg1 := d.tss0_alphaarg1, tss0_alphaarg2 := d.tss0_alphaarg2
     tss1_colorop := d.tss1_colorop, tss1_alphaop := d.tss1_alphaop
     viewport := d.viewport },
   { d with refCounts := fun i =>
       d.refCounts i + (if d.tex0 = some i then 1 else 0) })

/-- Restore writes every snapshot value back and releases the retained
texture reference. -/
def ImGui_ImplDX7_StateBackup.Restore (bk : ImGui_ImplDX7_StateBackup)
    (d : D3DDeviceState) : D3DDeviceState :=
  { world := bk.world, view := bk.view, proj := bk.proj
    rs_alpha_blend := bk.rs_alpha_blend, rs_src_blend := bk.rs_src_blend
    rs_dst_blend := bk.rs_dst_blend, rs_zenable := bk.rs_zenable
    rs_zwrite := bk.rs_zwrite, rs_cullmode := bk.rs_cullmode
    rs_lighting := bk.rs_lighting, rs_shade := bk.rs_shade
    rs_fog := bk.rs_fog, rs_clipping := bk.rs_clipping
    tex0 := bk.tex0
    tss0_colorop := bk.tss0_colorop, tss0_colorarg1 := bk.tss0_colorarg1
    tss0_colorarg2 := bk.tss0_colorarg2, tss0_alphaop := bk.tss0_alphaop
    tss0_alphaarg1 := bk.tss0_alphaarg1, tss0_alphaarg2 := bk.tss0_alphaarg2
    tss1_colorop := bk.tss1_colorop, tss1_alphaop := bk.tss1_alphaop
    viewport := bk.viewport
    refCounts := fun i =>
      d.refCounts i - (if bk.tex0 = some i then 1 else 0) }

/-- The state slots in the order Capture reads them and Restore writes
them, transcribed from the two call sequences of the source. -/
inductive StateKey where
  | xformWorld
  | xformView
  | xformProj
  | rsAlphaBlendEnable
  | rsSrcBlend
  | rsDestBlend
  | rsZEnable
  | rsZWriteEnable
  | rsCullMode
  | rsLighting
  | rsShadeMode
  | rsFogEnable
  | rsClipping
  | texture0
  | tss0ColorOp
  | tss0ColorArg1
  | tss0ColorArg2
  | tss0AlphaOp
  | tss0AlphaArg1
  | tss0AlphaArg2
  | tss1ColorOp
  | tss1AlphaOp
  | viewport
deriving DecidableEq, Repr

/-- Order of the Get calls in Capture. -/
def captureReadOrder : List StateKey :=
  [StateKey.xformWorld, StateKey.xformView, StateKey.xformProj,
   StateKey.rsAlphaBlendEnable, StateKey.rsSrcBlend, StateKey.rsDestBlend,
   StateKey.rsZEnable, StateKey.rsZWriteEnable, StateKey.rsCullMode,
   StateKey.rsLighting, StateKey.rsShadeMode, StateKey.rsFogEnable,
   StateKey.rsClipping, StateKey.texture0,
   StateKey.tss0ColorOp, StateKey.tss0ColorArg1, StateKey.tss0ColorArg2,
   StateKey.tss0AlphaOp, StateKey.tss0AlphaArg1, StateKey.tss0AlphaArg2,
   StateKey.tss1ColorOp, StateKey.tss1AlphaOp, StateKey.viewport]

/-- Order of the Set calls in Restore. -/
def restoreWriteOrder : List StateKey :=
  [StateKey.xformWorld, StateKey.xformView, StateKey.xformProj,
   StateKey.rsAlphaBlendEnable, StateKey.rsSrcBlend, StateKey.rsDestBlend,
   StateKey.rsZEnable, StateKey.rsZWriteEnable, StateKey.rsCullMode,
   StateKey.rsLighting, StateKey.rsShadeMode, StateKey.rsFogEnable,
   StateKey.rsClipping, StateKey.texture0,
   StateKey.tss0ColorOp, StateKey.tss0ColorArg1, StateKey.tss0ColorArg2,
   StateKey.tss0AlphaOp, StateKey.tss0AlphaArg1, StateKey.tss0AlphaArg2,
   StateKey.tss1ColorOp, StateKey.tss1AlphaOp, StateKey.viewport]

/-- C6: Capture immediately followed by Restore with no intervening
mutation restores every captured state value bit-identically (the whole
device state record, transforms, render states, texture stage states,
bound texture and viewport) and leaves every resource reference count
unchanged (GetTexture's retain is cancelled by Restore's release); and
Restore writes the values back in exactly the order Capture read them. -/
theorem C6_capture_restore_roundtrip :
    (∀ d : D3DDeviceState,
      ImGui_ImplDX7_StateBackup.Restore
        (ImGui_ImplDX7_StateBackup.Capture d).1
        (ImGui_ImplDX7_StateBackup.Capture d).2 = d) ∧
    captureReadOrder = restoreWriteOrder := by
  constructor
  · intro d
    obtain ⟨w, vi, pr, a1, a2, a3, a4, a5, a6, a7, a8, a9, a10, tx,
      b1, b2, b3, b4, b5, b6, b7, b8, vp, rc⟩ := d
    simp only [ImGui_ImplDX7_StateBackup.Capture,
      ImGui_ImplDX7_StateBackup.Restore, D3DDeviceState.mk.injEq,
      and_true, true_and]
    funext i
    rcases tx with _ | t
    · simp
    · by_cases hit : t = i <;> simp [hit]
  · rfl

/-! ### Claim C7: the command dispatcher clip-rect handling -/

/-- The C float-to-int cast (truncation toward zero). -/
def cTruncToInt (q : ℚ) : ℤ := if 0 ≤ q then ⌊q⌋ else -⌊-q⌋

/-- The framebuffer sizes fb_width and fb_height computed from the
display size and framebuffer scale. -/
def fbWidth (displaySize clip_scale : ImVec2) : ℤ :=
  cTruncToInt (displaySize.x * clip_scale.x)

def fbHeight (displaySize clip_scale : ImVec2) : ℤ :=
  cTruncToInt (displaySize.y * clip_scale.y)

/-- The vertex position transform of the frame batcher:
(pos - DisplayPos) * FramebufferScale, per component. -/
def batchVertexPos (clip_off clip_scale pos : ImVec2) : ImVec2 :=
  { x := (pos.x - clip_off.x) * clip_scale.x
    y := (pos.y - clip_off.y) * clip_scale.y }

/-- Per-command clip rect processing of RenderDrawData: transform the
rect corners to framebuffer space, skip (none) when empty or fully out of
bounds, else clamp to the framebuffer. -/
def ImGui_ImplDX7_ClipRectToFB (cr : ImVec4) (clip_off clip_scale : ImVec2)
    (fb_width fb_height : ℤ) : Option ImVec4 :=
  let cr_min : ImVec2 := ⟨(cr.x - clip_off.x) * clip_scale.x,
                          (cr.y - clip_off.y) * clip_scale.y⟩
  let cr_max : ImVec2 := ⟨(cr.z - clip_off.x) * clip_scale.x,
                          (cr.w - clip_off.y) * clip_scale.y⟩
  if cr_max.x ≤ cr_min.x ∨ cr_max.y ≤ cr_min.y then none
  else if cr_max.x < 0 ∨ cr_max.y < 0 ∨ cr_min.x > (fb_width : ℚ) ∨
      cr_min.y > (fb_height : ℚ) then none
  else
    some { x := if cr_min.x < 0 then 0 else cr_min.x
           y := if cr_min.y < 0 then 0 else cr_min.y
           z := if cr_max.x > (fb_width : ℚ) then (fb_width : ℚ) else cr_max.x
           w := if cr_max.y > (fb_height : ℚ) then (fb_height : ℚ) else cr_max.y }

/-- Per-command triangle loop: clip every index triple and accumulate the
clipped vertices and indices. -/
def clipTriangles (R : ImVec4) :
    List (ClippedVert × ClippedVert × ClippedVert) →
    List ClippedVert × List ℕ → List ClippedVert × List ℕ
  | [], acc => acc
  | t :: rest, acc =>
    clipTriangles R rest (EmitClippedTri t.1 t.2.1 t.2.2 R acc.1 acc.2)

/-- Number of DrawIndexedPrimitive calls a non-callback command issues:
none when the clip rect is skipped, one submission when the clipped index
buffer is nonempty, zero otherwise. -/
def ImGui_ImplDX7_CmdDrawCalls
    (tris : List (ClippedVert × ClippedVert × ClippedVert))
    (cr : ImVec4) (clip_off clip_scale : ImVec2)
    (fb_width fb_height : ℤ) : ℕ :=
  match ImGui_ImplDX7_ClipRectToFB cr clip_off clip_scale fb_width fb_height with
  | none => 0
  | some R => if (clipTriangles R tris ([], [])).2 = [] then 0 else 1

/-- C7: the dispatcher transforms the command clip rect with the very
vertex transform of the batcher; an empty transformed rect (max ≤ min) is
skipped; a nonempty rect disjoint from the framebuffer is skipped — in
particular one entirely beyond the framebuffer width; a skipped command
issues zero draw calls; and when not skipped the rect is the transformed
one clamped to the framebuffer bounds. -/
theorem C7_cliprect_dispatch (cr : ImVec4) (clip_off clip_scale : ImVec2)
    (fb_width fb_height : ℤ)
    (tris : List (ClippedVert × ClippedVert × ClippedVert)) :
    (((batchVertexPos clip_off clip_scale ⟨cr.z, cr.w⟩).x ≤
        (batchVertexPos clip_off clip_scale ⟨cr.x, cr.y⟩).x ∨
      (batchVertexPos clip_off clip_scale ⟨cr.z, cr.w⟩).y ≤
        (batchVertexPos clip_off clip_scale ⟨cr.x, cr.y⟩).y) →
      ImGui_ImplDX7_ClipRectToFB cr clip_off clip_scale fb_width fb_height =
        none) ∧
    ((0 : ℚ) ≤ (fb_width : ℚ) → (0 : ℚ) ≤ (fb_height : ℚ) →
     (∀ qx qy : ℚ,
        (batchVertexPos clip_off clip_scale ⟨cr.x, cr.y⟩).x ≤ qx →
        qx ≤ (batchVertexPos clip_off clip_scale ⟨cr.z, cr.w⟩).x →
        (batchVertexPos clip_off clip_scale ⟨cr.x, cr.y⟩).y ≤ qy →
        qy ≤ (batchVertexPos clip_off clip_scale ⟨cr.z, cr.w⟩).y →
        ¬ (0 ≤ qx ∧ qx ≤ (fb_width : ℚ) ∧ 0 ≤ qy ∧ qy ≤ (fb_height : ℚ))) →
      ImGui_ImplDX7_ClipRectToFB cr clip_off clip_scale fb_width fb_height =
        none) ∧
    ((batchVertexPos clip_off clip_scale ⟨cr.x, cr.y⟩).x > (fb_width : ℚ) →
      ImGui_ImplDX7_ClipRectToFB cr clip_off clip_scale fb_width fb_height =
        none) ∧
    (ImGui_ImplDX7_ClipRectToFB cr clip_off clip_scale fb_width fb_height =
        none →
      ImGui_ImplDX7_CmdDrawCalls tris cr clip_off clip_scale fb_width
        fb_height = 0) ∧
    (∀ R', ImGui_ImplDX7_ClipRectToFB cr clip_off clip_scale fb_width
        fb_height = some R' →
      R' = { x := max (batchVertexPos clip_off clip_scale ⟨cr.x, cr.y⟩).x 0
             y := max (batchVertexPos clip_off clip_scale ⟨cr.x, cr.y⟩).y 0
             z := min (batchVertexPos clip_off clip_scale ⟨cr.z, cr.w⟩).x
                    (fb_width : ℚ)
             w := min (batchVertexPos clip_off clip_scale ⟨cr.z, cr.w⟩).y
                    (fb_height : ℚ) }) := by
  set mx := (cr.x - clip_off.x) * clip_scale.x with hmx
  set my := (cr.y - clip_off.y) * clip_scale.y with hmy
  set Mx := (cr.z - clip_off.x) * clip_scale.x with hMx
  set My := (cr.w - clip_off.y) * clip_scale.y with hMy
  have hbmin : batchVertexPos clip_off clip_scale ⟨cr.x, cr.y⟩ = ⟨mx, my⟩ := rfl
  have hbmax : batchVertexPos clip_off clip_scale ⟨cr.z, cr.w⟩ = ⟨Mx, My⟩ := rfl
  refine ⟨?_, ?_, ?_, ?_, ?_⟩
  · intro h
    rw [hbmin, hbmax] at h
    simp only [ImGui_ImplDX7_ClipRectToFB]
    rw [if_pos h]
  · intro hw hh hdisj
    rw [hbmin, hbmax] at hdisj
    simp only [ImGui_ImplDX7_ClipRectToFB]
    by_cases hempty : Mx ≤ mx ∨ My ≤ my
    · rw [if_pos hempty]
    · rw [if_neg hempty]
      push_neg at hempty
      have hcoarse : Mx < 0 ∨ My < 0 ∨ mx > (fb_width : ℚ) ∨
          my > (fb_height : ℚ) := by
        by_contra hno
        push_neg at hno
        obtain ⟨h1, h2, h3, h4⟩ := hno
        refine hdisj (max mx 0) (max my 0) (le_max_left _ _) ?_
          (le_max_left _ _) ?_ ⟨le_max_right _ _, ?_, le_max_right _ _, ?_⟩
        · exact max_le (le_of_lt hempty.1) h1
        · exact max_le (le_of_lt hempty.2) h2
        · exact max_le h3 hw
        · exact max_le h4 hh
      rw [if_pos hcoarse]
  · intro h
    rw [hbmin] at h
    simp only [ImGui_ImplDX7_ClipRectToFB]
    by_cases hempty : Mx ≤ mx ∨ My ≤ my
    · rw [if_pos hempty]
    · rw [if_neg hempty, if_pos (Or.inr (Or.inr (Or.inl h)))]
  · intro h
    simp [ImGui_ImplDX7_CmdDrawCalls, h]
  · intro R' h
    rw [hbmin, hbmax]
    simp only [ImGui_ImplDX7_ClipRectToFB] at h
    by_cases hempty : Mx ≤ mx ∨ My ≤ my
    · rw [if_pos hempty] at h
      exact absurd h (by simp)
    · rw [if_neg hempty] at h
      by_cases hout : Mx < 0 ∨ My < 0 ∨ mx > (fb_width : ℚ) ∨
          my > (fb_height : ℚ)
      · rw [if_pos hout] at h
        exact absurd h (by simp)
      · rw [if_neg hout] at h
        push_neg at hout
        obtain ⟨h1, h2, h3, h4⟩ := hout
        have hR := (Option.some_injective _ h).symm
        rw [hR]
        have e1 : (if mx < 0 then (0 : ℚ) else mx) = max mx 0 := by
          rcases lt_or_le mx 0 with hc | hc
          · rw [if_pos hc]
            exact (max_eq_right (le_of_lt hc)).symm
          · rw [if_neg (not_lt.mpr hc)]
            exact (max_eq_left hc).symm
        have e2 : (if my < 0 then (0 : ℚ) else my) = max my 0 := by
          rcases lt_or_le my 0 with hc | hc
          · rw [if_pos hc]
            exact (max_eq_right (le_of_lt hc)).symm
          · rw [if_neg (not_lt.mpr hc)]
            exact (max_eq_left hc).symm
        have e3 : (if Mx > (fb_width : ℚ) then (fb_width : ℚ) else Mx) =
            min Mx (fb_width : ℚ) := by
          rcases lt_or_le (fb_width : ℚ) Mx with hc | hc
          · rw [if_pos hc]
            exact (min_eq_right (le_of_lt hc)).symm
          · rw [if_neg (not_lt.mpr hc)]
            exact (min_eq_left hc).symm
        have e4 : (if My > (fb_height : ℚ) then (fb_height : ℚ) else My) =
            min My (fb_height : ℚ) := by
          rcases lt_or_le (fb_height : ℚ) My with hc | hc
          · rw [if_pos hc]
            exact (min_eq_right (le_of_lt hc)).symm
          · rw [if_neg (not_lt.mpr hc)]
            exact (min_eq_left hc).symm
        rw [e1, e2, e3, e4]

/-- C7 witness: a command whose clip rect lies entirely beyond the
framebuffer width is skipped with zero draw calls, and a partially
overlapping rect is clamped; hypotheses discharged at concrete values. -/
theorem C7_cliprect_dispatch_witness :
    ImGui_ImplDX7_ClipRectToFB ⟨150, 10, 160, 20⟩ ⟨0, 0⟩ ⟨1, 1⟩ 100 100 =
      none ∧
    ImGui_ImplDX7_CmdDrawCalls [] ⟨150, 10, 160, 20⟩ ⟨0, 0⟩ ⟨1, 1⟩ 100 100 =
      0 ∧
    ImGui_ImplDX7_ClipRectToFB ⟨-10, -10, 50, 50⟩ ⟨0, 0⟩ ⟨1, 1⟩ 40 40 =
      some { x := max (batchVertexPos ⟨0, 0⟩ ⟨1, 1⟩ ⟨-10, -10⟩).x 0
             y := max (batchVertexPos ⟨0, 0⟩ ⟨1, 1⟩ ⟨-10, -10⟩).y 0
             z := min (batchVertexPos ⟨0, 0⟩ ⟨1, 1⟩ ⟨50, 50⟩).x ((40 : ℤ) : ℚ)
             w := min (batchVertexPos ⟨0, 0⟩ ⟨1, 1⟩ ⟨50, 50⟩).y ((40 : ℤ) : ℚ) } := by
  refine ⟨?_, ?_, ?_⟩
  · exact (C7_cliprect_dispatch ⟨150, 10, 160, 20⟩ ⟨0, 0⟩ ⟨1, 1⟩ 100 100
      []).2.2.1 (by norm_num [batchVertexPos])
  · exact (C7_cliprect_dispatch ⟨150, 10, 160, 20⟩ ⟨0, 0⟩ ⟨1, 1⟩ 100 100
      []).2.2.2.1 ((C7_cliprect_dispatch ⟨150, 10, 160, 20⟩ ⟨0, 0⟩ ⟨1, 1⟩
        100 100 []).2.2.1 (by norm_num [batchVertexPos]))
  · have h : ImGui_ImplDX7_ClipRectToFB ⟨-10, -10, 50, 50⟩ ⟨0, 0⟩ ⟨1, 1⟩
        40 40 = some ⟨0, 0, 40, 40⟩ := by
      norm_num [ImGui_ImplDX7_ClipRectToFB]
    rw [h]
    exact congrArg some ((C7_cliprect_dispatch ⟨-10, -10, 50, 50⟩ ⟨0, 0⟩
      ⟨1, 1⟩ 40 40 []).2.2.2.2 ⟨0, 0, 40, 40⟩ h)

/-! ### Claim C8: double font-atlas upload -/

/-- State of the font-texture manager: a fresh-id allocator standing for
DirectDraw surface creation, the set of surfaces not yet released, the
global g_FontTexture pointer, and the atlas TexID published to ImGui. -/
structure FontTexState where
  nextId : ℕ
  alive : List ℕ
  g_FontTexture : Option ℕ
  fontsTexID : Option ℕ
deriving DecidableEq, Repr

/-- The success path of ImGui_ImplDX7_CreateFontsTexture: create a new
surface, store it in g_FontTexture and publish it as the atlas TexID,
then return true.  The previous value of g_FontTexture is neither checked
nor released. -/
def ImGui_ImplDX7_CreateFontsTexture (s : FontTexState) :
    Bool × FontTexState :=
  (true,
   { nextId := s.nextId + 1
     alive := s.nextId :: s.alive
     g_FontTexture := some s.nextId
     fontsTexID := some s.nextId })

/-- ImGui_ImplDX7_DestroyFontsTexture: clear the TexID, release the
surface held by g_FontTexture (if any) and null the pointer. -/
def ImGui_ImplDX7_DestroyFontsTexture (s : FontTexState) : FontTexState :=
  { nextId := s.nextId
    alive := match s.g_FontTexture with
             | some t => s.alive.erase t
             | none => s.alive
    g_FontTexture := none
    fontsTexID := none }

/-- C8 evaluation at the failing input: after a successful upload, a
second upload without a release is not rejected — it returns true,
overwrites g_FontTexture with the new surface, and leaves the first
surface unreleased and unreachable (a leak), contradicting the claim that
a second upload is rejected and a stale resource never leaks. -/
theorem C8_double_upload_leaks :
    (ImGui_ImplDX7_CreateFontsTexture
      (ImGui_ImplDX7_CreateFontsTexture ⟨0, [], none, none⟩).2).1 = true ∧
    (ImGui_ImplDX7_CreateFontsTexture
      (ImGui_ImplDX7_CreateFontsTexture ⟨0, [], none, none⟩).2).2.g_FontTexture =
      some 1 ∧
    0 ∈ (ImGui_ImplDX7_CreateFontsTexture
      (ImGui_ImplDX7_CreateFontsTexture ⟨0, [], none, none⟩).2).2.alive ∧
    (ImGui_ImplDX7_CreateFontsTexture
      (ImGui_ImplDX7_CreateFontsTexture ⟨0, [], none, none⟩).2).2.g_FontTexture ≠
      some 0 := by decide

end DX7
